import Mathlib

/-!
# ecollect: wheel-speed / GPS logger

A shallow embedding of `speed.c`, `gps.c` and the display tick of `main.c`
(`screen_3`), followed by theorems about the embedding.

Conventions of the embedding:

* `RTIME` (Xenomai, printed with `%llu`) is an unsigned 64-bit integer: a
  `Nat` below `2 ^ 64`, arithmetic reduced `% 2 ^ 64`.
* `unsigned long` has `w` bits, `w` being a parameter of the functions that
  use one (32 on ILP32 targets, 64 on LP64 targets).
* `double` values are idealised as exact rationals (`ℚ`): no rounding, no
  NaN, no infinities.
* Text is `List Char`.
-/

namespace Ecollect

/-! ## speed.c -/

/-- The modulus of `RTIME` arithmetic (`unsigned long long`). -/
def RTIME_MOD : Nat := 2 ^ 64

/-- `#define EPSILON 100 * 1000 * 1000` (nanoseconds), local to
`task_hard_routine`. -/
def EPSILON : Nat := 100 * 1000 * 1000

/-- The locals of `task_hard_routine`: `n` (how many IRQ since init) and
`time_prev` (when the previous accepted IRQ was). -/
structure hard_locals where
  n : Nat
  time_prev : Nat
deriving DecidableEq, Repr

/-- One turn of the `while (1)` loop of `task_hard_routine`, for the IRQ whose
timestamp `rt_timer_read()` is `time_curr`.  The guard is
`++n % 2 && time_curr > time_prev + EPSILON`; the sum is an `RTIME` sum and
wraps at `2 ^ 64`.  Returns the new locals and the message written to the
queue, if any. -/
def task_hard_step (w : Nat) (s : hard_locals) (time_curr : Nat) :
    hard_locals × Option Nat :=
  let n := (s.n + 1) % 2 ^ w
  if n % 2 ≠ 0 ∧ time_curr > (s.time_prev + EPSILON) % RTIME_MOD then
    ({ n := n, time_prev := time_curr }, some time_curr)
  else
    ({ n := n, time_prev := s.time_prev }, none)

/-- The loop of `task_hard_routine` over the IRQ timestamps `irqs`, from the
locals `s` and with `queue` the messages written so far (oldest first). -/
def task_hard_loop (w : Nat) : hard_locals → List Nat → List Nat → hard_locals × List Nat
  | s, queue, [] => (s, queue)
  | s, queue, time_curr :: rest =>
    match task_hard_step w s time_curr with
    | (s1, some t) => task_hard_loop w s1 (queue ++ [t]) rest
    | (s1, none) => task_hard_loop w s1 queue rest

/-- The routine `task_hard_routine`: `n = 0`, `time_prev = rt_timer_read()`
(here `start`), then the loop.  The result is the locals and the content
written to the queue after the IRQs `irqs`. -/
def task_hard_routine (w : Nat) (start : Nat) (irqs : List Nat) : hard_locals × List Nat :=
  task_hard_loop w { n := 0, time_prev := start } [] irqs

/-- The static variables of `speed.c` that the claims observe: `running`,
`instant`, `average`, and the text written to `ostream` (the file `./speed`),
one entry per `fprintf(ostream, "%llu\n", t)`: the entry `t` stands for the
line holding the decimal digits of `t`.  `average_file` is the content of the
file `./average` written by `speed_exit`. -/
structure speed_t where
  running : Bool
  instant : ℚ
  average : ℚ
  ostream : List Nat
  average_file : Option ℚ
deriving DecidableEq, Repr

/-- The locals of `task_soft_routine`. -/
structure soft_locals where
  n : Nat
  time_init : Nat
  time_prev : Nat
deriving DecidableEq, Repr

/-- The difference `a - b` of two `RTIME` values, as C computes it. -/
def rtime_sub (a b : Nat) : Nat := (a + RTIME_MOD - b % RTIME_MOD) % RTIME_MOD

/-- One turn of the `while (1)` loop of `task_soft_routine`, for the message
`time_curr` read from the queue. -/
def task_soft_step (w : Nat) (g : speed_t) (s : soft_locals) (time_curr : Nat) :
    speed_t × soft_locals :=
  let instant : ℚ := 1000000000 / (rtime_sub time_curr s.time_prev : ℚ)
  let n := (s.n + 1) % 2 ^ w
  let average : ℚ := 1000000000 * (n : ℚ) / (rtime_sub time_curr s.time_init : ℚ)
  ({ g with instant := instant, average := average, ostream := g.ostream ++ [time_curr] },
   { n := n, time_init := s.time_init, time_prev := time_curr })

/-- The loop of `task_soft_routine` over the messages still in the queue. -/
def task_soft_loop (w : Nat) : speed_t → soft_locals → List Nat → speed_t × soft_locals
  | g, s, [] => (g, s)
  | g, s, time_curr :: rest =>
    task_soft_loop w (task_soft_step w g s time_curr).1 (task_soft_step w g s time_curr).2 rest

/-- The routine `task_soft_routine` run on the messages `msgs` delivered by
the queue (oldest first): the first message is read into `time_init` and
`time_prev`, outside the loop; the others are handled by the loop.  With no
message the task is still blocked on its first read. -/
def task_soft_routine (w : Nat) (g : speed_t) : List Nat → speed_t
  | [] => g
  | time_init :: rest =>
    (task_soft_loop w g { n := 0, time_init := time_init, time_prev := time_init } rest).1

/-- The function `speed_init`; `fopen_ok` tells whether `fopen("speed", "w")`
succeeded. -/
def speed_init (fopen_ok : Bool) (g : speed_t) : Int × speed_t :=
  if g.running then (-1, g)
  else if !fopen_ok then (-1, g)
  else (0, { g with ostream := [], instant := 0, average := 0, running := true })

/-- The function `speed_exit`. -/
def speed_exit (g : speed_t) : Int × speed_t :=
  if !g.running then (-1, g)
  else (0, { g with running := false, average_file := some g.average })

/-- The function `speed_get_instant`: the return value and the content of
`*dest` after the call (`dest` is its content before). -/
def speed_get_instant (g : speed_t) (dest : ℚ) : Int × ℚ :=
  if !g.running then (-1, dest) else (0, g.instant)

/-- The function `speed_get_average`. -/
def speed_get_average (g : speed_t) (dest : ℚ) : Int × ℚ :=
  if !g.running then (-1, dest) else (0, g.average)

/-! ## gps.c -/

/-- The constant `GPS_FRAME_SIZE` of `gps.h`. -/
def GPS_FRAME_SIZE : Nat := 128

/-- The static variables of `gps.c` that the claims observe: `running`, the
C string held in `frame` (without its terminating NUL), and the text written
to `ostream` (the file `./gps`), one entry `(s, t)` per
`fprintf(ostream, "%s,%llu\n", s, t)`. -/
structure gps_t where
  running : Bool
  frame : List Char
  ostream : List (List Char × Nat)
deriving DecidableEq, Repr

/-- The text `"$GPGGA"`. -/
def GPGGA : List Char := ['$', 'G', 'P', 'G', 'G', 'A']

/-- The libc function `strncmp` on two C strings, as the test
`strncmp(a, b, n) == 0`: at most `n` characters are compared, and the
comparison stops at the end of the strings. -/
def strncmp_eq : List Char → List Char → Nat → Bool
  | _, _, 0 => true
  | [], [], _ + 1 => true
  | x :: xs, y :: ys, n + 1 => x == y && strncmp_eq xs ys n
  | [], _ :: _, _ + 1 => false
  | _ :: _, [], _ + 1 => false

/-- One turn of the `while (1)` loop of `task_routine`, when
`fscanf(istream, "%s", buffer)` reads the word `word` and `rt_timer_read()`
gives `now`.  The conversion `%s` has no field width: it stores the whole word
and a NUL into `buffer[GPS_FRAME_SIZE]`, so a word of `GPS_FRAME_SIZE`
characters or more is written past the end of the array, which has no defined
behaviour: the result is then `none`. -/
def task_routine_step (g : gps_t) (word : List Char) (now : Nat) : Option gps_t :=
  if GPS_FRAME_SIZE < word.length + 1 then none
  else if strncmp_eq word GPGGA 6 then
    some { g with frame := word, ostream := g.ostream ++ [(word, now)] }
  else some g

/-- The function `gps_init`; the two flags tell whether the two `fopen` calls
succeeded. -/
def gps_init (istream_ok ostream_ok : Bool) (g : gps_t) : Int × gps_t :=
  if g.running then (-1, g)
  else if !istream_ok then (-1, g)
  else if !ostream_ok then (-1, g)
  else (0, { g with ostream := [], frame := [], running := true })

/-- The function `gps_exit`. -/
def gps_exit (g : gps_t) : Int × gps_t :=
  if !g.running then (-1, g)
  else (0, { g with running := false })

/-- The function `gps_get_frame`: the return value and the C string in `dest`
after the call. -/
def gps_get_frame (g : gps_t) (dest : List Char) : Int × List Char :=
  if !g.running then (-1, dest) else (0, g.frame)

/-! ## libc: the conversions of `sscanf` used by `screen_3` -/

/-- The outcome of one directive of a `scanf` format. `unmodelled` marks an
input on which this development does not describe the conversion. -/
inductive conv (α : Type) where
  | ok (v : α) (rest : List Char)
  | matching_failure
  | input_failure
  | unmodelled
deriving DecidableEq, Repr

/-- The libc predicate `isspace` in the C locale. -/
def isspace (c : Char) : Bool :=
  c.toNat = 32 || (9 ≤ c.toNat && c.toNat ≤ 13)

/-- The libc predicate `isdigit`. -/
def isdigit (c : Char) : Bool :=
  48 ≤ c.toNat && c.toNat ≤ 57

/-- The value of a decimal digit. -/
def digit_value (c : Char) : Nat := c.toNat - 48

/-- The value of a sequence of decimal digits. -/
def digits_value (ds : List Char) : Nat :=
  ds.foldl (fun acc c => 10 * acc + digit_value c) 0

/-- The outcome of reading the digits of a number: its value and the count of
characters read, or no number, or a form of number that is not described
here. -/
inductive mantissa where
  | ok (v : ℚ) (len : Nat)
  | none
  | unmodelled
deriving DecidableEq, Repr

/-- The digits of a number at the start of `r1`, of the form
`digits [. digits]` with at least one digit.  The other forms that `strtod`
accepts (an exponent, hexadecimal, `inf`, `nan`) are not described: the
outcome is then `unmodelled`. -/
def scan_mantissa (r1 : List Char) : mantissa :=
  if r1.head? = some 'i' ∨ r1.head? = some 'I' ∨ r1.head? = some 'n' ∨ r1.head? = some 'N' then
    mantissa.unmodelled
  else
    let ip := r1.takeWhile isdigit
    let r2 := r1.dropWhile isdigit
    if ip = ['0'] ∧ (r2.head? = some 'x' ∨ r2.head? = some 'X') then mantissa.unmodelled
    else
      match r2 with
      | '.' :: t =>
        let fp := t.takeWhile isdigit
        let r3 := t.dropWhile isdigit
        if ip.length + fp.length = 0 then mantissa.none
        else if r3.head? = some 'e' ∨ r3.head? = some 'E' then mantissa.unmodelled
        else
          mantissa.ok ((digits_value ip : ℚ) + (digits_value fp : ℚ) / (10 : ℚ) ^ fp.length)
            (ip.length + 1 + fp.length)
      | _ =>
        if ip.length = 0 then mantissa.none
        else if r2.head? = some 'e' ∨ r2.head? = some 'E' then mantissa.unmodelled
        else mantissa.ok (digits_value ip : ℚ) ip.length

/-- The conversion `%f` (also `%lf`) of `scanf`, with an optional maximum field
width, on the input `inp`: white space is skipped, then the longest sequence
of at most `width` characters of the form `[+-] digits [. digits]` holding at
least one digit is read, and its value is the result.  End of input before
any character is an input failure; no digit is a matching failure. -/
def scan_float (width : Option Nat) (inp : List Char) : conv ℚ :=
  let inp1 := inp.dropWhile isspace
  if inp1 = [] then conv.input_failure
  else
    let region := match width with
      | none => inp1
      | some k => inp1.take k
    let neg : Bool := region.head? = some '-'
    let nsign : Nat := if region.head? = some '-' ∨ region.head? = some '+' then 1 else 0
    match scan_mantissa (region.drop nsign) with
    | mantissa.ok v len => conv.ok (if neg then -v else v) (inp1.drop (nsign + len))
    | mantissa.none => conv.matching_failure
    | mantissa.unmodelled => conv.unmodelled

/-- The conversion `%c` of `scanf`: the next character, white space included. -/
def scan_char : List Char → conv Char
  | [] => conv.input_failure
  | c :: rest => conv.ok c rest

/-- An ordinary character of a `scanf` format: it must be the next character. -/
def scan_lit (c : Char) : List Char → conv Unit
  | [] => conv.input_failure
  | d :: rest => if d = c then conv.ok () rest else conv.matching_failure

/-- A directive of a `scanf` format: an ordinary character, `%f` with its
optional field width and its assignment suppression flag `*`, or `%c`. -/
inductive directive where
  | lit (c : Char)
  | flt (width : Option Nat) (suppress : Bool)
  | chr
deriving DecidableEq, Repr

/-- A value stored by `scanf` through one of its pointer arguments. -/
inductive stored where
  | num (q : ℚ)
  | chr (c : Char)
deriving DecidableEq, Repr

/-- The return value of `scanf` when a directive fails after `done` items
were assigned: `EOF` (-1) on an input failure with nothing assigned yet,
`done` otherwise. -/
def scanf_stop (input_end : Bool) (done : List stored) : Int :=
  if input_end ∧ done = [] then -1 else (done.length : Int)

/-- The function `sscanf` on a list of directives: the return value and the
values stored, in order; `none` when a conversion is `unmodelled`. -/
def sscanf : List directive → List Char → List stored → Option (Int × List stored)
  | [], _, done => some ((done.length : Int), done)
  | directive.lit c :: fmt, inp, done =>
    match scan_lit c inp with
    | conv.ok _ rest => sscanf fmt rest done
    | conv.matching_failure => some (scanf_stop false done, done)
    | conv.input_failure => some (scanf_stop true done, done)
    | conv.unmodelled => none
  | directive.flt width suppress :: fmt, inp, done =>
    match scan_float width inp with
    | conv.ok v rest => sscanf fmt rest (if suppress then done else done ++ [stored.num v])
    | conv.matching_failure => some (scanf_stop false done, done)
    | conv.input_failure => some (scanf_stop true done, done)
    | conv.unmodelled => none
  | directive.chr :: fmt, inp, done =>
    match scan_char inp with
    | conv.ok v rest => sscanf fmt rest (done ++ [stored.chr v])
    | conv.matching_failure => some (scanf_stop false done, done)
    | conv.input_failure => some (scanf_stop true done, done)
    | conv.unmodelled => none

/-! ## main.c: the display tick of `screen_3` -/

/-- The type `sector_t`. -/
structure sector_t where
  latitude : ℚ
  longitude : ℚ
  speed_min : ℚ
  speed_max : ℚ
deriving DecidableEq, Repr

/-- The type `config_file_t`. -/
structure config_file_t where
  wheel_length : Nat
  gps_epsilon_latitude : ℚ
  gps_epsilon_longitude : ℚ
deriving DecidableEq, Repr

/-- The type `sector_file_t`: `sectors` holds the entries of the array that
were loaded, and `count` is the field `count`.  The array is static storage:
an entry that was never loaded is all zeros. -/
structure sector_file_t where
  sectors : List sector_t
  count : Nat
deriving DecidableEq, Repr

/-- The array access `sf.sectors[i]`. -/
def sector_file_t.at (sf : sector_file_t) (i : Nat) : sector_t :=
  sf.sectors.getD i { latitude := 0, longitude := 0, speed_min := 0, speed_max := 0 }

/-- The macro `COLLIDE(x, y, x0, y0, w, h)`. -/
def COLLIDE (x y x0 y0 w h : ℚ) : Bool :=
  decide (x > x0) && decide (x < x0 + w) && decide (y > y0) && decide (y < y0 + h)

/-- The format `"$GPGGA,%*f,%2lf%lf,%c,%3lf%lf,%c,%c"` of the `sscanf` call of
`screen_3`. -/
def gpgga_format : List directive :=
  [directive.lit '$', directive.lit 'G', directive.lit 'P', directive.lit 'G',
   directive.lit 'G', directive.lit 'A', directive.lit ',',
   directive.flt none true, directive.lit ',',
   directive.flt (some 2) false, directive.flt none false, directive.lit ',',
   directive.chr, directive.lit ',',
   directive.flt (some 3) false, directive.flt none false, directive.lit ',',
   directive.chr, directive.lit ',',
   directive.chr]

/-- The locals of `screen_3` that the `sscanf` call writes, with the value it
returns.  A local that the call did not write keeps an indeterminate value. -/
structure gpgga_scan where
  ret : Int
  latitude : ℚ
  latitude_min : ℚ
  latitude_dir : Char
  longitude : ℚ
  longitude_min : ℚ
  longitude_dir : Char
  fix : Char
deriving DecidableEq, Repr

/-- The seven stores of the `sscanf` call of `screen_3`: the values `vals`
are written, in order from the `i`-th, to `latitude`, `latitude_min`,
`latitude_dir`, `longitude`, `longitude_min`, `longitude_dir` and `fix`. -/
def store_locals : Nat → List stored → gpgga_scan → gpgga_scan
  | 0, stored.num q :: vs, s => store_locals 1 vs { s with latitude := q }
  | 1, stored.num q :: vs, s => store_locals 2 vs { s with latitude_min := q }
  | 2, stored.chr c :: vs, s => store_locals 3 vs { s with latitude_dir := c }
  | 3, stored.num q :: vs, s => store_locals 4 vs { s with longitude := q }
  | 4, stored.num q :: vs, s => store_locals 5 vs { s with longitude_min := q }
  | 5, stored.chr c :: vs, s => store_locals 6 vs { s with longitude_dir := c }
  | 6, stored.chr c :: vs, s => store_locals 7 vs { s with fix := c }
  | _, _, s => s

/-- The `sscanf` call of `screen_3` on the frame `gps_frame`: the locals after
the call, `before` being their (indeterminate) values before it; `none` when a
conversion is `unmodelled`. -/
def sscanf_gpgga (before : gpgga_scan) (gps_frame : List Char) : Option gpgga_scan :=
  match sscanf gpgga_format gps_frame [] with
  | none => none
  | some (ret, vals) => some { store_locals 0 vals before with ret := ret }

/-- The conversion of the NMEA latitude and longitude to degrees, lines
`latitude += latitude_min / 60` to `longitude *= longitude_dir == 'E' ? 1 : -1`. -/
def decode_position (s : gpgga_scan) : ℚ × ℚ :=
  ((s.latitude + s.latitude_min / 60) * (if s.latitude_dir = 'N' then 1 else -1),
   (s.longitude + s.longitude_min / 60) * (if s.longitude_dir = 'E' then 1 else -1))

/-- The test of the sector at `sector_curr` in the matching loop. -/
def sector_collide (cfg : config_file_t) (sf : sector_file_t) (latitude longitude : ℚ)
    (sector_curr : Nat) : Bool :=
  COLLIDE latitude longitude
    ((sf.at sector_curr).latitude - cfg.gps_epsilon_latitude)
    ((sf.at sector_curr).longitude - cfg.gps_epsilon_longitude)
    (2 * cfg.gps_epsilon_latitude)
    (2 * cfg.gps_epsilon_longitude)

/-- The loop `while (k < sector_file.count && !COLLIDE(...))` of `screen_3`,
from the values `sector_curr` and `k`: the values of `sector_curr` and `k`
when the loop ends. -/
def match_loop (cfg : config_file_t) (sf : sector_file_t) (latitude longitude : ℚ)
    (sector_curr k : Nat) : Nat × Nat :=
  if k < sf.count ∧ sector_collide cfg sf latitude longitude sector_curr = false then
    match_loop cfg sf latitude longitude
      (if sector_curr + 1 = sf.count then 0 else sector_curr + 1) (k + 1)
  else (sector_curr, k)
termination_by sf.count - k
decreasing_by omega

/-- A colour: the three arguments of the macro `PSGC_RGB555` of `<psgc.h>`. -/
structure rgb555 where
  r : Nat
  g : Nat
  b : Nat
deriving DecidableEq, Repr

/-- The macro `PSGC_RGB555`, kept as the triple of its arguments. -/
def PSGC_RGB555 (r g b : Nat) : rgb555 := { r := r, g := g, b := b }

/-- The colour chosen for a matched sector, lines 393 to 406 of `main.c`. -/
def sector_color (speed_instant : ℚ) (sector : sector_t) : rgb555 :=
  if speed_instant > sector.speed_min ∧ speed_instant < sector.speed_max then
    PSGC_RGB555 31 31 0
  else if speed_instant < sector.speed_min then PSGC_RGB555 0 31 0
  else PSGC_RGB555 31 0 0

/-- The conversion from Hz to km/h,
`speed_instant *= config_file.wheel_length / 1000.0 * 3.6`. -/
def to_kmh (cfg : config_file_t) (speed : ℚ) : ℚ :=
  speed * ((cfg.wheel_length : ℚ) / 1000 * (36 / 10))

/-- One turn of the event loop of `screen_3`, from the fetch of the speed to
the choice of `color`: `speed_hz` is what `speed_get_instant` wrote, `scan` the
outcome of the `sscanf` call on the frame that `gps_get_frame` wrote.  The
result is `color` and the value of `sector_curr` after the turn. -/
def screen_3_turn (cfg : config_file_t) (sf : sector_file_t) (sector_curr : Nat)
    (speed_hz : ℚ) (scan : gpgga_scan) : rgb555 × Nat :=
  let color := PSGC_RGB555 31 31 31
  let speed_instant := to_kmh cfg speed_hz
  if sf.count > 0 then
    if scan.ret = 7 ∧ (scan.fix = '1' ∨ scan.fix = '2') then
      let p := decode_position scan
      let r := match_loop cfg sf p.1 p.2 sector_curr 0
      if r.2 ≠ sf.count then (sector_color speed_instant (sf.at r.1), r.1)
      else (color, r.1)
    else (color, sector_curr)
  else (color, sector_curr)

/-- One turn of the event loop of `screen_3` on the frame `gps_frame` that
`gps_get_frame` wrote; `none` when a conversion of the `sscanf` call is
`unmodelled`. -/
def screen_3_frame (cfg : config_file_t) (sf : sector_file_t) (sector_curr : Nat)
    (speed_hz : ℚ) (before : gpgga_scan) (gps_frame : List Char) : Option (rgb555 × Nat) :=
  match sscanf_gpgga before gps_frame with
  | none => none
  | some scan => some (screen_3_turn cfg sf sector_curr speed_hz scan)

/-- The four classifications of the specification. -/
inductive classification where
  | Unknown
  | Within
  | Under
  | Over
deriving DecidableEq, Repr

/-- The colour that shows a classification: white (the default) for Unknown,
yellow for Within, green for Under, red for Over. -/
def classification.color : classification → rgb555
  | classification.Unknown => PSGC_RGB555 31 31 31
  | classification.Within => PSGC_RGB555 31 31 0
  | classification.Under => PSGC_RGB555 0 31 0
  | classification.Over => PSGC_RGB555 31 0 0

/-! ## Vocabulary of the specification -/

/-- The box of the sector at index `i` strictly contains the position, in the
words of the specification: `sector.lat - eps_lat < lat < sector.lat + eps_lat`
and `sector.lon - eps_lon < lon < sector.lon + eps_lon`. -/
def strictly_inside (cfg : config_file_t) (sf : sector_file_t) (lat lon : ℚ) (i : Nat) : Prop :=
  (sf.at i).latitude - cfg.gps_epsilon_latitude < lat ∧
  lat < (sf.at i).latitude + cfg.gps_epsilon_latitude ∧
  (sf.at i).longitude - cfg.gps_epsilon_longitude < lon ∧
  lon < (sf.at i).longitude + cfg.gps_epsilon_longitude

instance (cfg : config_file_t) (sf : sector_file_t) (lat lon : ℚ) (i : Nat) :
    Decidable (strictly_inside cfg sf lat lon i) := by
  unfold strictly_inside; infer_instance

/-! ## Sample data, for the witnesses -/

/-- A sample configuration: a wheel of 2000 mm, boxes of half-width 1 degree. -/
def sample_config : config_file_t :=
  { wheel_length := 2000, gps_epsilon_latitude := 1, gps_epsilon_longitude := 1 }

/-- A sample sector table of three sectors; the boxes of the last two overlap. -/
def sample_sectors : sector_file_t :=
  { sectors := [{ latitude := 0, longitude := 0, speed_min := 10, speed_max := 20 },
                { latitude := 5, longitude := 5, speed_min := 10, speed_max := 20 },
                { latitude := 5, longitude := 6, speed_min := 1, speed_max := 2 }],
    count := 3 }

/-- The type field of a sentence, in the words of the specification: the text
before the first comma. -/
def type_field (sentence : List Char) : List Char :=
  sentence.takeWhile (fun c => c != ',')

/-- A stopped `speed.c`: the static variables at program start (all zero). -/
def speed_start : speed_t :=
  { running := false, instant := 0, average := 0, ostream := [], average_file := none }

/-- A stopped `gps.c`: the static variables at program start (all zero). -/
def gps_start : gps_t :=
  { running := false, frame := [], ostream := [] }

/-- A sentence of 128 characters that starts with `$GPGGA,`. -/
def oversized_sentence : List Char :=
  GPGGA ++ [','] ++ List.replicate 121 '0'

/-! ## The layout of the fix sentence, from the specification -/

/-- A decimal field of a sentence: the digits before the point and, when the
field has a point, the digits after it. -/
structure decimal_field where
  int_part : List Char
  frac_part : Option (List Char)
deriving DecidableEq, Repr

/-- The text of a decimal field. -/
def decimal_field.text (d : decimal_field) : List Char :=
  d.int_part ++ (match d.frac_part with
    | none => []
    | some f => '.' :: f)

/-- The number that a decimal field denotes. -/
def decimal_field.value (d : decimal_field) : ℚ :=
  (digits_value d.int_part : ℚ) + (match d.frac_part with
    | none => 0
    | some f => (digits_value f : ℚ) / (10 : ℚ) ^ f.length)

/-- A decimal field is well formed: at least one digit before the point, and
digits only. -/
def decimal_field.wf (d : decimal_field) : Bool :=
  !d.int_part.isEmpty && d.int_part.all isdigit && (match d.frac_part with
    | none => true
    | some f => f.all isdigit)

/-- The fields of a sentence laid out as
`$GPGGA,<time>,ddmm.mmmm,<N|S>,dddmm.mmmm,<E|W>,<fix><tail>`. -/
structure gga_fields where
  time : decimal_field
  lat_deg : List Char
  lat_min : decimal_field
  lat_dir : Char
  lon_deg : List Char
  lon_min : decimal_field
  lon_dir : Char
  fix : Char
  tail : List Char
deriving DecidableEq, Repr

/-- The text of the sentence. -/
def gga_fields.text (f : gga_fields) : List Char :=
  GPGGA ++ ',' :: (f.time.text ++ ',' :: (f.lat_deg ++ (f.lat_min.text ++ ',' :: f.lat_dir :: ','
    :: (f.lon_deg ++ (f.lon_min.text ++ ',' :: f.lon_dir :: ',' :: f.fix :: f.tail)))))

/-- The layout is respected: decimal time and minutes, two digits of degrees
of latitude, three of longitude, a hemisphere letter `N` or `S`, then `E` or
`W`. -/
def gga_fields.wf (f : gga_fields) : Bool :=
  f.time.wf && f.lat_deg.length == 2 && f.lat_deg.all isdigit && f.lat_min.wf
    && (f.lat_dir == 'N' || f.lat_dir == 'S')
    && f.lon_deg.length == 3 && f.lon_deg.all isdigit && f.lon_min.wf
    && (f.lon_dir == 'E' || f.lon_dir == 'W')

/-- The latitude that the sentence denotes: `dd + mm.mmmm / 60`, negated when
the hemisphere letter is `S`. -/
def gga_fields.latitude (f : gga_fields) : ℚ :=
  if f.lat_dir = 'S' then -((digits_value f.lat_deg : ℚ) + f.lat_min.value / 60)
  else (digits_value f.lat_deg : ℚ) + f.lat_min.value / 60

/-- The longitude that the sentence denotes: `ddd + mm.mmmm / 60`, negated
when the hemisphere letter is `W`. -/
def gga_fields.longitude (f : gga_fields) : ℚ :=
  if f.lon_dir = 'W' then -((digits_value f.lon_deg : ℚ) + f.lon_min.value / 60)
  else (digits_value f.lon_deg : ℚ) + f.lon_min.value / 60

/-- The fields of the sentence
`$GPGGA,123519,4807.038,N,01131.000,E,1,08,0.9,545.4,M,46.9,M,,`. -/
def sample_fix : gga_fields :=
  { time := { int_part := ['1', '2', '3', '5', '1', '9'], frac_part := none },
    lat_deg := ['4', '8'],
    lat_min := { int_part := ['0', '7'], frac_part := some ['0', '3', '8'] },
    lat_dir := 'N',
    lon_deg := ['0', '1', '1'],
    lon_min := { int_part := ['3', '1'], frac_part := some ['0', '0', '0'] },
    lon_dir := 'E',
    fix := '1',
    tail := [',', '0', '8', ',', '0', '.', '9', ',', '5', '4', '5', '.', '4', ',', 'M', ',',
             '4', '6', '.', '9', ',', 'M', ',', ','] }

/-- Indeterminate values for the locals of `screen_3` before its `sscanf`
call. -/
def sample_locals : gpgga_scan :=
  { ret := 0, latitude := 0, latitude_min := 0, latitude_dir := 'x', longitude := 0,
    longitude_min := 0, longitude_dir := 'x', fix := 'x' }

/-! ## The matching loop, with the array reads it makes -/

/-- The indices `i` of the reads `sector_file.sectors[i]` made by the condition
of the loop `while (k < sector_file.count && !COLLIDE(...))` of `screen_3`, in
order, from the values `sector_curr` and `k`: the macro `COLLIDE` reads the
sector at `sector_curr`, and `&&` evaluates it only when `k < count`. -/
def match_loop_reads (cfg : config_file_t) (sf : sector_file_t) (latitude longitude : ℚ)
    (sector_curr k : Nat) : List Nat :=
  if k < sf.count then
    if sector_collide cfg sf latitude longitude sector_curr = false then
      sector_curr :: match_loop_reads cfg sf latitude longitude
        (if sector_curr + 1 = sf.count then 0 else sector_curr + 1) (k + 1)
    else [sector_curr]
  else []
termination_by sf.count - k
decreasing_by omega

/-- The value of `sector_curr` after successive turns of `screen_3` that run
the matching loop on the positions `ps`, from the value `sector_curr`. -/
def cursor_after (cfg : config_file_t) (sf : sector_file_t) : Nat → List (ℚ × ℚ) → Nat
  | sector_curr, [] => sector_curr
  | sector_curr, p :: ps =>
    cursor_after cfg sf (match_loop cfg sf p.1 p.2 sector_curr 0).1 ps

/-- The capacity of the array `sectors` of `sector_file_t`. -/
def SECTORS_SIZE : Nat := 8192

/-! # Theorems -/

/-! ## Lemmas: the rotation filter -/

theorem task_hard_loop_append (w : Nat) (a b : List Nat) (s : hard_locals) (q : List Nat) :
    task_hard_loop w s q (a ++ b)
      = task_hard_loop w (task_hard_loop w s q a).1 (task_hard_loop w s q a).2 b := by
  induction a generalizing s q with
  | nil => rfl
  | cons t a ih =>
    simp only [List.cons_append, task_hard_loop]
    split <;> exact ih _ _

theorem task_hard_loop_n (w : Nat) (irqs : List Nat) (s : hard_locals) (q : List Nat) :
    (task_hard_loop w s q irqs).1.n % 2 ^ w = (s.n + irqs.length) % 2 ^ w := by
  induction irqs generalizing s q with
  | nil => simp [task_hard_loop]
  | cons t a ih =>
    have hn : (task_hard_step w s t).1.n = (s.n + 1) % 2 ^ w := by
      unfold task_hard_step; simp only []; split <;> rfl
    simp only [task_hard_loop]
    split
    · next s1 t1 heq =>
      rw [ih]
      have : s1.n = (s.n + 1) % 2 ^ w := by rw [← hn, heq]
      rw [this, List.length_cons, Nat.mod_add_mod]
      congr 1; omega
    · next s1 heq =>
      rw [ih]
      have : s1.n = (s.n + 1) % 2 ^ w := by rw [← hn, heq]
      rw [this, List.length_cons, Nat.mod_add_mod]
      congr 1; omega

theorem task_hard_loop_prev (w : Nat) (start : Nat) (irqs : List Nat) (s : hard_locals)
    (q : List Nat) (h : s.time_prev = q.getLast?.getD start) :
    (task_hard_loop w s q irqs).1.time_prev = (task_hard_loop w s q irqs).2.getLast?.getD start := by
  induction irqs generalizing s q with
  | nil => simpa [task_hard_loop] using h
  | cons t a ih =>
    simp only [task_hard_loop]
    split
    · next s1 t1 heq =>
      apply ih
      unfold task_hard_step at heq
      simp only [] at heq
      split at heq
      · cases heq; simp
      · cases heq
    · next s1 heq =>
      apply ih
      unfold task_hard_step at heq
      simp only [] at heq
      split at heq
      · cases heq
      · cases heq; exact h

theorem parity_wrap (w : Nat) (hw : 0 < w) (m : Nat) : (m % 2 ^ w) % 2 = m % 2 := by
  have h2 : 2 ∣ 2 ^ w := dvd_pow_self 2 (by omega)
  exact Nat.mod_mod_of_dvd m h2

/-- C1 (amended): provided `last_accepted + 100,000,000` does not overflow 64
bits, the raw edge number `pre.length + 1`, of timestamp `T`, is pushed to the
queue if and only if its number is odd and `T - last_accepted > 100,000,000`,
where `last_accepted` (the local `time_prev`) is the timestamp of the last
edge pushed, or the start time of the task when none was pushed yet; an edge
that is not pushed leaves the queue and `time_prev` as they were, and every
edge increments the counter `n`. -/
theorem C1_filter_accepts_iff (w : Nat) (hw : 0 < w) (start : Nat) (pre : List Nat) (T : Nat)
    (hno : (task_hard_routine w start pre).2.getLast?.getD start + EPSILON < 2 ^ 64) :
    (task_hard_routine w start pre).1.time_prev
        = (task_hard_routine w start pre).2.getLast?.getD start ∧
    ((task_hard_routine w start (pre ++ [T])).2 = (task_hard_routine w start pre).2 ++ [T] ↔
      (pre.length + 1) % 2 = 1 ∧
      (T : Int) - (((task_hard_routine w start pre).2.getLast?.getD start : Nat) : Int)
        > 100000000) ∧
    ((task_hard_routine w start (pre ++ [T])).2 ≠ (task_hard_routine w start pre).2 ++ [T] →
      (task_hard_routine w start (pre ++ [T])).2 = (task_hard_routine w start pre).2 ∧
      (task_hard_routine w start (pre ++ [T])).1.time_prev
        = (task_hard_routine w start pre).1.time_prev) ∧
    (task_hard_routine w start (pre ++ [T])).1.n
      = ((task_hard_routine w start pre).1.n + 1) % 2 ^ w := by
  have hprev : (task_hard_routine w start pre).1.time_prev
        = (task_hard_routine w start pre).2.getLast?.getD start :=
    task_hard_loop_prev w start pre _ _ (by simp)
  have hn : (task_hard_routine w start pre).1.n % 2 ^ w = (0 + pre.length) % 2 ^ w :=
    task_hard_loop_n w pre { n := 0, time_prev := start } []
  have happ : task_hard_routine w start (pre ++ [T])
      = task_hard_loop w (task_hard_routine w start pre).1 (task_hard_routine w start pre).2 [T] :=
    task_hard_loop_append w pre [T] _ _
  rw [happ]
  generalize task_hard_routine w start pre = r at *
  obtain ⟨s, q⟩ := r
  simp only [] at hprev hn hno ⊢
  have hpar0 : s.n % 2 = pre.length % 2 := by
    have h := congrArg (fun x => x % 2) hn
    simp only [parity_wrap w hw, Nat.zero_add] at h
    exact h
  have hpar : ((s.n + 1) % 2 ^ w) % 2 = (pre.length + 1) % 2 := by
    rw [parity_wrap w hw]; omega
  have hmod : (s.time_prev + EPSILON) % RTIME_MOD = s.time_prev + EPSILON := by
    rw [hprev]; exact Nat.mod_eq_of_lt hno
  have hE : EPSILON = 100000000 := by decide
  refine ⟨hprev, ?_⟩
  simp only [task_hard_loop, task_hard_step, hmod, hpar]
  rw [← hprev, hE]
  by_cases hc : (pre.length + 1) % 2 ≠ 0 ∧ T > s.time_prev + 100000000
  · rw [if_pos hc]
    simp only [true_iff, ne_eq, not_true_eq_false, false_implies, true_and, and_true]
    omega
  · rw [if_neg hc]
    have hq : ¬ (q = q ++ [T]) := by
      intro h
      have := congrArg List.length h
      simp at this
    simp only [ne_eq, hq, not_false_eq_true, true_implies, and_true, true_and, false_iff]
    omega

/-- Witness of C1 (amended): the third edge, 200 ms after the first, is pushed. -/
theorem C1_filter_accepts_iff_witness :
    ((task_hard_routine 32 0 ([100000001, 100000002] ++ [300000001])).2
        = (task_hard_routine 32 0 [100000001, 100000002]).2 ++ [300000001] ↔
      ([100000001, 100000002].length + 1) % 2 = 1 ∧
      ((300000001 : Nat) : Int)
        - (((task_hard_routine 32 0 [100000001, 100000002]).2.getLast?.getD 0 : Nat) : Int)
        > 100000000) :=
  (C1_filter_accepts_iff 32 (by decide) 0 [100000001, 100000002] 300000001 (by decide)).2.1

/-- C1 as stated fails when `time_prev + EPSILON` wraps at `2 ^ 64`: after the
edges `2^64 - 10^8` (pushed, so `last_accepted = 2^64 - 10^8`) and
`2^64 - 10^8 + 1` (even, not pushed), the third edge `2^64 - 10^8 + 2` is pushed
although it is only 2 ns after the last pushed edge. -/
theorem C1_counterexample :
    (task_hard_routine 64 0 [18446744073609551616, 18446744073609551617]).2.getLast?.getD 0
      = 18446744073609551616 ∧
    ¬ ((task_hard_routine 64 0
          ([18446744073609551616, 18446744073609551617] ++ [18446744073609551618])).2
        = (task_hard_routine 64 0 [18446744073609551616, 18446744073609551617]).2
          ++ [18446744073609551618] ↔
      ([18446744073609551616, 18446744073609551617].length + 1) % 2 = 1 ∧
      ((18446744073609551618 : Nat) : Int)
        - (((task_hard_routine 64 0
            [18446744073609551616, 18446744073609551617]).2.getLast?.getD 0 : Nat) : Int)
        > 100000000) := by
  decide

/-! ## Lemmas: the speed aggregator -/

theorem rtime_sub_of_le (a b : Nat) (hab : b ≤ a) (ha : a < 2 ^ 64) :
    rtime_sub a b = a - b := by
  unfold rtime_sub RTIME_MOD
  have hb : b % 2 ^ 64 = b := Nat.mod_eq_of_lt (by omega)
  rw [hb]
  omega

theorem task_soft_loop_running (w : Nat) (rest : List Nat) (g : speed_t) (s : soft_locals) :
    (task_soft_loop w g s rest).1.running = g.running := by
  induction rest generalizing g s with
  | nil => rfl
  | cons t rest ih => simp only [task_soft_loop]; rw [ih]; rfl

theorem task_soft_loop_init (w : Nat) (rest : List Nat) (g : speed_t) (s : soft_locals) :
    (task_soft_loop w g s rest).2.time_init = s.time_init := by
  induction rest generalizing g s with
  | nil => rfl
  | cons t rest ih => simp only [task_soft_loop]; rw [ih]; rfl

theorem task_soft_loop_n (w : Nat) (rest : List Nat) (g : speed_t) (s : soft_locals) :
    (task_soft_loop w g s rest).2.n % 2 ^ w = (s.n + rest.length) % 2 ^ w := by
  induction rest generalizing g s with
  | nil => rfl
  | cons t rest ih =>
    simp only [task_soft_loop]; rw [ih]
    simp only [task_soft_step, List.length_cons, Nat.mod_add_mod]
    congr 1; omega

theorem task_soft_loop_append (w : Nat) (a b : List Nat) (g : speed_t) (s : soft_locals) :
    task_soft_loop w g s (a ++ b)
      = task_soft_loop w (task_soft_loop w g s a).1 (task_soft_loop w g s a).2 b := by
  induction a generalizing g s with
  | nil => rfl
  | cons t a ih => simp only [List.cons_append, task_soft_loop]; exact ih _ _

theorem task_soft_loop_prev (w : Nat) (rest : List Nat) (g : speed_t) (s : soft_locals) :
    (task_soft_loop w g s rest).2.time_prev = (s.time_prev :: rest).getLast (by simp) := by
  induction rest generalizing g s with
  | nil => rfl
  | cons t rest ih =>
    simp only [task_soft_loop]; rw [ih]
    simp [task_soft_step]

theorem task_soft_loop_ostream (w : Nat) (rest : List Nat) (g : speed_t) (s : soft_locals) :
    (task_soft_loop w g s rest).1.ostream = g.ostream ++ rest := by
  induction rest generalizing g s with
  | nil => simp [task_soft_loop]
  | cons t rest ih =>
    simp only [task_soft_loop]; rw [ih]
    simp [task_soft_step]

theorem length_le_of_increasing (l : List Nat) (a b : Nat) (hinc : l.Pairwise (· < ·))
    (hb : ∀ x ∈ l, a ≤ x ∧ x < b) : l.length ≤ b - a := by
  induction l generalizing a with
  | nil => simp
  | cons h t ih =>
    have hh := hb h (by simp)
    have hp := List.pairwise_cons.mp hinc
    have := ih (h + 1) hp.2 (fun x hx => ⟨hp.1 x hx, (hb x (by simp [hx])).2⟩)
    simp only [List.length_cons]
    omega

/-- C2: for every running session and every strictly increasing sequence
`t0 < t1 < ... < tk` (`k ≥ 1`) of 64-bit timestamps delivered by the queue,
after `tk` the snapshot holds `instant = 1e9 / (tk - t(k-1))` and
`average = 1e9 * k / (tk - t0)`, in exact arithmetic, and `speed_get_instant`
and `speed_get_average` return 0 and write these values.  The rotation counter
`n` is an `unsigned long` of `w` bits: either `w ≥ 64`, or the counter has not
wrapped (`k < 2 ^ w`). -/
theorem C2_aggregator_snapshot (w : Nat) (g : speed_t) (ts : List Nat) (k : Nat) (dest : ℚ)
    (hrun : g.running = true)
    (hlen : ts.length = k + 1) (hk : 1 ≤ k)
    (hinc : ts.Pairwise (· < ·))
    (hbound : ∀ t ∈ ts, t < 2 ^ 64)
    (hcount : 64 ≤ w ∨ k < 2 ^ w) :
    (task_soft_routine w g ts).instant
      = 1000000000 / ((ts.getD k 0 : ℚ) - (ts.getD (k - 1) 0 : ℚ)) ∧
    (task_soft_routine w g ts).average
      = 1000000000 * (k : ℚ) / ((ts.getD k 0 : ℚ) - (ts.getD 0 0 : ℚ)) ∧
    speed_get_instant (task_soft_routine w g ts) dest = (0, (task_soft_routine w g ts).instant) ∧
    speed_get_average (task_soft_routine w g ts) dest = (0, (task_soft_routine w g ts).average) := by
  -- split the messages into the first one, the middle ones and the last one
  obtain ⟨t0, rest, rfl⟩ : ∃ t0 rest, ts = t0 :: rest := by
    cases ts with
    | nil => simp at hlen
    | cons t0 rest => exact ⟨t0, rest, rfl⟩
  have hrl : rest.length = k := by simpa using hlen
  obtain ⟨mid, tk, rfl⟩ : ∃ mid tk, rest = mid ++ [tk] := by
    have hne : rest ≠ [] := by
      intro h; rw [h] at hrl; simp at hrl; omega
    exact ⟨rest.dropLast, rest.getLast hne, (List.dropLast_append_getLast hne).symm⟩
  have hml : mid.length + 1 = k := by simpa using hrl
  -- the state before the last message
  simp only [task_soft_routine]
  rw [task_soft_loop_append]
  have hrun1 := task_soft_loop_running w mid g
    { n := 0, time_init := t0, time_prev := t0 }
  have hinit := task_soft_loop_init w mid g { n := 0, time_init := t0, time_prev := t0 }
  have hn := task_soft_loop_n w mid g { n := 0, time_init := t0, time_prev := t0 }
  have hprev := task_soft_loop_prev w mid g { n := 0, time_init := t0, time_prev := t0 }
  generalize task_soft_loop w g { n := 0, time_init := t0, time_prev := t0 } mid = r at *
  obtain ⟨g1, s1⟩ := r
  simp only [] at hrun1 hinit hn hprev
  -- the elements read by index
  have hk0 : (t0 :: (mid ++ [tk])).getD 0 0 = t0 := rfl
  have hkk : (t0 :: (mid ++ [tk])).getD k 0 = tk := by
    rw [← hml]; simp [List.getD_cons_succ, List.getD_append_right]
  have hkp : (t0 :: (mid ++ [tk])).getD (k - 1) 0 = (t0 :: mid).getLast (by simp) := by
    have : (t0 :: (mid ++ [tk])) = (t0 :: mid) ++ [tk] := rfl
    rw [this, List.getD_append _ _ _ _ (by simp; omega)]
    rw [List.getLast_eq_getElem, List.getD_eq_getElem _ _ (by simp; omega)]
    congr 1
    simp; omega
  rw [hk0, hkk, hkp, ← hprev]
  -- ordering facts
  have hlast_mem : s1.time_prev ∈ t0 :: mid := by rw [hprev]; exact List.getLast_mem _
  have hpw : (t0 :: mid ++ [tk]).Pairwise (· < ·) := hinc
  have hlt_all : ∀ x ∈ t0 :: mid, x < tk := by
    intro x hx
    have := (List.pairwise_append.mp (show ((t0 :: mid) ++ [tk]).Pairwise (· < ·) from hinc)).2.2
    exact this x hx tk (by simp)
  have hprev_lt : s1.time_prev < tk := hlt_all _ hlast_mem
  have ht0_lt : t0 < tk := hlt_all _ (by simp)
  have htk : tk < 2 ^ 64 := hbound tk (by simp)
  -- the counter
  have hn1 : (s1.n + 1) % 2 ^ w = k := by
    rw [← Nat.mod_add_mod, hn, Nat.mod_add_mod, Nat.zero_add, hml]
    apply Nat.mod_eq_of_lt
    rcases hcount with hw | hc
    · have hl := length_le_of_increasing (t0 :: (mid ++ [tk])) 0 (2 ^ 64) hinc
        (fun x hx => ⟨Nat.zero_le _, hbound x hx⟩)
      have h64 : 2 ^ 64 ≤ 2 ^ w := Nat.pow_le_pow_right (by decide) hw
      simp only [List.length_cons, List.length_append, List.length_singleton] at hl
      omega
    · exact hc
  simp only [task_soft_loop, task_soft_step, speed_get_instant, speed_get_average, hrun1, hrun,
    hinit, hn1, rtime_sub_of_le _ _ hprev_lt.le htk, rtime_sub_of_le _ _ ht0_lt.le htk,
    Nat.cast_sub hprev_lt.le, Nat.cast_sub ht0_lt.le]
  simp

/-- Witness of C2: the messages 100, 300, 600 on a running session. -/
theorem C2_aggregator_snapshot_witness :
    (task_soft_routine 32 ⟨true, 0, 0, [], none⟩ [100, 300, 600]).instant
      = 1000000000 / ((([100, 300, 600] : List Nat).getD 2 0 : ℚ)
          - (([100, 300, 600] : List Nat).getD (2 - 1) 0 : ℚ)) :=
  (C2_aggregator_snapshot 32 ⟨true, 0, 0, [], none⟩ [100, 300, 600] 2 0 rfl rfl (by decide)
    (by decide) (by decide) (Or.inr (by decide))).1

/-! ## Lemmas: the matching loop -/

theorem sector_collide_iff (cfg : config_file_t) (sf : sector_file_t) (lat lon : ℚ) (i : Nat) :
    sector_collide cfg sf lat lon i = true ↔ strictly_inside cfg sf lat lon i := by
  unfold sector_collide COLLIDE strictly_inside
  simp only [Bool.and_eq_true, decide_eq_true_eq, gt_iff_lt]
  constructor
  · rintro ⟨⟨⟨h1, h2⟩, h3⟩, h4⟩
    refine ⟨h1, ?_, h3, ?_⟩ <;> linarith
  · rintro ⟨h1, h2, h3, h4⟩
    refine ⟨⟨⟨h1, ?_⟩, h3⟩, ?_⟩ <;> linarith

theorem next_index (n x : Nat) :
    (if x % n + 1 = n then 0 else x % n + 1) = (x + 1) % n := by
  rcases Nat.eq_zero_or_pos n with h0 | hn
  · subst h0; simp
  · have hlt := Nat.mod_lt x hn
    rw [← Nat.mod_add_mod x n 1]
    split
    · next h => rw [h, Nat.mod_self]
    · next h => rw [Nat.mod_eq_of_lt (show x % n + 1 < n by omega)]

theorem match_loop_stop (cfg : config_file_t) (sf : sector_file_t) (lat lon : ℚ)
    (cur k : Nat) (h : sf.count ≤ k ∨ strictly_inside cfg sf lat lon cur) :
    match_loop cfg sf lat lon cur k = (cur, k) := by
  rw [match_loop]
  rw [if_neg]
  rintro ⟨h1, h2⟩
  rcases h with h | h
  · omega
  · rw [(sector_collide_iff cfg sf lat lon cur).mpr h] at h2
    cases h2

theorem match_loop_skip (cfg : config_file_t) (sf : sector_file_t) (lat lon : ℚ)
    (c m : Nat) (hm : m ≤ sf.count)
    (hno : ∀ j, j < m → ¬ strictly_inside cfg sf lat lon ((c + j) % sf.count)) :
    match_loop cfg sf lat lon (c % sf.count) 0
      = match_loop cfg sf lat lon ((c + m) % sf.count) m := by
  induction m with
  | zero => rfl
  | succ m ih =>
    rw [ih (by omega) (fun j hj => hno j (by omega))]
    have hn := hno m (by omega)
    rw [← sector_collide_iff, Bool.not_eq_true] at hn
    conv_lhs => rw [match_loop]
    rw [if_pos ⟨by omega, hn⟩, next_index]
    rfl

theorem match_loop_first (cfg : config_file_t) (sf : sector_file_t) (lat lon : ℚ)
    (c j : Nat) (hc : c < sf.count) (hj : j < sf.count)
    (hin : strictly_inside cfg sf lat lon ((c + j) % sf.count))
    (hno : ∀ i, i < j → ¬ strictly_inside cfg sf lat lon ((c + i) % sf.count)) :
    match_loop cfg sf lat lon c 0 = ((c + j) % sf.count, j) := by
  have h := match_loop_skip cfg sf lat lon c j hj.le hno
  rw [Nat.mod_eq_of_lt hc] at h
  rw [h]
  exact match_loop_stop cfg sf lat lon _ _ (Or.inr hin)

theorem match_loop_none (cfg : config_file_t) (sf : sector_file_t) (lat lon : ℚ)
    (c : Nat) (hc : c < sf.count)
    (hno : ∀ i, i < sf.count → ¬ strictly_inside cfg sf lat lon i) :
    match_loop cfg sf lat lon c 0 = (c, sf.count) := by
  have h := match_loop_skip cfg sf lat lon c sf.count le_rfl
    (fun j _ => hno _ (Nat.mod_lt _ (by omega)))
  rw [Nat.mod_eq_of_lt hc] at h
  rw [h, Nat.add_mod_right, Nat.mod_eq_of_lt hc]
  exact match_loop_stop cfg sf lat lon _ _ (Or.inl le_rfl)

theorem scan_offset (n c i : Nat) (hc : c < n) (hi : i < n) :
    ∃ j, j < n ∧ (c + j) % n = i := by
  by_cases h : c ≤ i
  · refine ⟨i - c, by omega, ?_⟩
    have : c + (i - c) = i := by omega
    rw [this]
    exact Nat.mod_eq_of_lt hi
  · refine ⟨n + i - c, by omega, ?_⟩
    have : c + (n + i - c) = i + n := by omega
    rw [this, Nat.add_mod_right]
    exact Nat.mod_eq_of_lt hi

/-- Some sector contains the position: the circular scan from `c` has a first
offset `j < count` at which it meets one. -/
theorem first_offset (cfg : config_file_t) (sf : sector_file_t) (lat lon : ℚ)
    (c i : Nat) (hc : c < sf.count) (hi : i < sf.count)
    (hin : strictly_inside cfg sf lat lon i) :
    ∃ j, j < sf.count ∧ strictly_inside cfg sf lat lon ((c + j) % sf.count) ∧
      ∀ j0, j0 < j → ¬ strictly_inside cfg sf lat lon ((c + j0) % sf.count) := by
  obtain ⟨j1, hj1, he⟩ := scan_offset sf.count c i hc hi
  have hex : ∃ j, strictly_inside cfg sf lat lon ((c + j) % sf.count) :=
    ⟨j1, by rw [he]; exact hin⟩
  refine ⟨Nat.find hex, ?_, Nat.find_spec hex, fun j0 hj0 => Nat.find_min hex hj0⟩
  exact lt_of_le_of_lt (Nat.find_le (by rw [he]; exact hin)) hj1

/-- C3: for every sector table with `count ≥ 1`, every cursor `c < count` and
every position, the scan loop of `screen_3` stops on the index
`(c + j) mod count` for the least `j` in `[0, count)` whose box strictly
contains the position (with `k = j`, so a match is reported, and the cursor
`sector_curr` is that index); it reports no match (`k = count`) exactly when no
sector's box contains the position.  In particular a sector that is the only
one containing the position is found from every cursor. -/
theorem C3_match_step (cfg : config_file_t) (sf : sector_file_t) (lat lon : ℚ) (c : Nat)
    (hcount : 1 ≤ sf.count) (hc : c < sf.count) :
    (∀ j, j < sf.count → strictly_inside cfg sf lat lon ((c + j) % sf.count) →
      (∀ i, i < j → ¬ strictly_inside cfg sf lat lon ((c + i) % sf.count)) →
      match_loop cfg sf lat lon c 0 = ((c + j) % sf.count, j)) ∧
    ((match_loop cfg sf lat lon c 0).2 = sf.count ↔
      ∀ i, i < sf.count → ¬ strictly_inside cfg sf lat lon i) ∧
    (∀ i, i < sf.count → strictly_inside cfg sf lat lon i →
      (∀ i0, i0 < sf.count → strictly_inside cfg sf lat lon i0 → i0 = i) →
      (match_loop cfg sf lat lon c 0).1 = i ∧ (match_loop cfg sf lat lon c 0).2 ≠ sf.count) := by
  refine ⟨fun j hj hin hno => match_loop_first cfg sf lat lon c j hc hj hin hno, ?_, ?_⟩
  · constructor
    · intro hk i hi hin
      obtain ⟨j, hj, hjin, hjno⟩ := first_offset cfg sf lat lon c i hc hi hin
      rw [match_loop_first cfg sf lat lon c j hc hj hjin hjno] at hk
      simp only [] at hk
      omega
    · intro hno
      rw [match_loop_none cfg sf lat lon c hc hno]
  · intro i hi hin huniq
    obtain ⟨j, hj, hjin, hjno⟩ := first_offset cfg sf lat lon c i hc hi hin
    rw [match_loop_first cfg sf lat lon c j hc hj hjin hjno]
    exact ⟨huniq _ (Nat.mod_lt _ (by omega)) hjin, by simp only [ne_eq]; omega⟩

/-- Witness of C3: the position (5, 5.5) lies in the boxes of sectors 1 and 2 of
the sample table; scanned from cursor 2, sector 2 is met first. -/
theorem C3_match_step_witness :
    match_loop sample_config sample_sectors 5 (11 / 2) 2 0 = ((2 + 0) % sample_sectors.count, 0) :=
  (C3_match_step sample_config sample_sectors 5 (11 / 2) 2 (by decide) (by decide)).1 0
    (by decide) (by norm_num [strictly_inside, sector_file_t.at, sample_sectors, sample_config])
    (fun i hi => absurd hi (Nat.not_lt_zero i))

/-! ## The colour of a matched sector -/

/-- C4 (amended): for every matched sector with `speed_min < speed_max` and
every instant speed `S`, the colour is the one of Within when
`speed_min < S < speed_max`, of Under when `S < speed_min`, and of Over when
`S ≥ speed_max` or `S = speed_min`. -/
theorem C4_classify (S : ℚ) (sector : sector_t) (h : sector.speed_min < sector.speed_max) :
    (sector.speed_min < S ∧ S < sector.speed_max →
      sector_color S sector = classification.Within.color) ∧
    (S < sector.speed_min → sector_color S sector = classification.Under.color) ∧
    (S ≥ sector.speed_max ∨ S = sector.speed_min →
      sector_color S sector = classification.Over.color) := by
  unfold sector_color classification.color
  refine ⟨fun hw => ?_, fun hu => ?_, fun ho => ?_⟩
  · rw [if_pos ⟨hw.1, hw.2⟩]
  · rw [if_neg (fun hc => absurd hc.1 (not_lt.mpr hu.le)), if_pos hu]
  · have h1 : ¬ (S > sector.speed_min ∧ S < sector.speed_max) := by
      rintro ⟨ha, hb⟩
      rcases ho with ho | ho
      · exact absurd hb (not_lt.mpr ho)
      · exact absurd ha (by rw [ho]; exact lt_irrefl _)
    have h2 : ¬ S < sector.speed_min := by
      rcases ho with ho | ho
      · exact not_lt.mpr (le_trans h.le ho)
      · rw [ho]; exact lt_irrefl _
    rw [if_neg h1, if_neg h2]

/-- Witness of C4 (amended): in a sector of range 10 to 20, the speed 10 has the
colour of Over. -/
theorem C4_classify_witness :
    sector_color 10 { latitude := 0, longitude := 0, speed_min := 10, speed_max := 20 }
      = classification.Over.color :=
  (C4_classify 10 { latitude := 0, longitude := 0, speed_min := 10, speed_max := 20 }
    (by norm_num)).2.2 (Or.inr rfl)

/-- C4 as stated fails at `S = speed_min`: in a sector of range 10 to 20
(`speed_min < speed_max`, `S ≤ speed_min`), the speed 10 does not get the colour
of Under, it gets the colour of Over. -/
theorem C4_counterexample :
    ((10 : ℚ) < 20 ∧ (10 : ℚ) ≤ 10) ∧
    sector_color 10 { latitude := 0, longitude := 0, speed_min := 10, speed_max := 20 }
      ≠ classification.Under.color ∧
    sector_color 10 { latitude := 0, longitude := 0, speed_min := 10, speed_max := 20 }
      = classification.Over.color := by
  refine ⟨by norm_num, ?_, ?_⟩ <;>
    simp [sector_color, classification.color, PSGC_RGB555]

/-! ## Position acquisition -/

theorem strncmp_eq_GPGGA (word : List Char) :
    strncmp_eq word GPGGA 6 = true ↔ word.take 6 = GPGGA := by
  unfold GPGGA
  rcases word with _ | ⟨a, _ | ⟨b, _ | ⟨c, _ | ⟨d, _ | ⟨e, _ | ⟨f, r⟩⟩⟩⟩⟩⟩ <;>
    simp [strncmp_eq, and_assoc]

/-- C7 (amended): for every sentence of at most 127 characters, the sentence
is copied into `frame` and appended (with the timestamp) to the position log
if and only if its first six characters are `$GPGGA`; for every other such
sentence `frame` and the log are left as they were. -/
theorem C7_acquisition (g : gps_t) (word : List Char) (now : Nat)
    (hlen : word.length ≤ GPS_FRAME_SIZE - 1) :
    (task_routine_step g word now
        = some { g with frame := word, ostream := g.ostream ++ [(word, now)] } ↔
      word.take 6 = GPGGA) ∧
    (word.take 6 ≠ GPGGA → task_routine_step g word now = some g) := by
  have hsz : ¬ GPS_FRAME_SIZE < word.length + 1 := by
    unfold GPS_FRAME_SIZE at hlen ⊢; omega
  unfold task_routine_step
  rw [if_neg hsz]
  by_cases h : word.take 6 = GPGGA
  · rw [if_pos ((strncmp_eq_GPGGA word).mpr h)]
    simp [h]
  · have hs : ¬ (strncmp_eq word GPGGA 6 = true) := fun hc => h ((strncmp_eq_GPGGA word).mp hc)
    rw [if_neg hs]
    refine ⟨⟨fun he => ?_, fun hc => absurd hc h⟩, fun _ => rfl⟩
    have := congrArg (fun o => o.map (fun x => x.ostream.length)) he
    simp at this

/-- Witness of C7 (amended): an RMC sentence leaves the state as it was. -/
theorem C7_acquisition_witness :
    task_routine_step gps_start ['$', 'G', 'P', 'R', 'M', 'C', ',', '1'] 5 = some gps_start :=
  (C7_acquisition gps_start ['$', 'G', 'P', 'R', 'M', 'C', ',', '1'] 5 (by decide)).2 (by decide)

/-- C7 as stated fails: the type field of the sentence `$GPGGAX,1` is
`$GPGGAX`, which is not the fix-data identifier, yet the sentence is copied
into `frame` and appended to the log. -/
theorem C7_counterexample :
    type_field ['$', 'G', 'P', 'G', 'G', 'A', 'X', ',', '1'] ≠ GPGGA ∧
    task_routine_step gps_start ['$', 'G', 'P', 'G', 'G', 'A', 'X', ',', '1'] 5
      = some { running := false,
               frame := ['$', 'G', 'P', 'G', 'G', 'A', 'X', ',', '1'],
               ostream := [(['$', 'G', 'P', 'G', 'G', 'A', 'X', ',', '1'], 5)] } := by
  decide

/-- C10 (the code at the failing input): a sentence of 128 characters does not
fit `buffer[GPS_FRAME_SIZE]` with its NUL; the turn of `task_routine` that
reads it has no defined behaviour, where the claim has it return with `frame`
and the log as they were. -/
theorem C10_oversized_sentence (g : gps_t) (now : Nat) :
    oversized_sentence.length = 128 ∧ oversized_sentence.take 6 = GPGGA ∧
    task_routine_step g oversized_sentence now = none ∧
    task_routine_step g oversized_sentence now ≠ some g := by
  have hl : oversized_sentence.length = 128 := by
    simp [oversized_sentence, GPGGA]
  have hgt : GPS_FRAME_SIZE < oversized_sentence.length + 1 := by
    rw [hl]; decide
  refine ⟨hl, by simp [oversized_sentence, GPGGA], ?_, ?_⟩
  · unfold task_routine_step
    rw [if_pos hgt]
  · unfold task_routine_step
    rw [if_pos hgt]
    exact fun h => Option.noConfusion h

/-! ## Session lifecycle -/

/-- C8: in every state of the two subsystems: `init` returns -1 and leaves the
state as it was when the subsystem is running; `exit` returns -1 when it is
not running; each getter returns -1 and leaves `dest` as it was exactly when
the subsystem is not running, and otherwise returns 0 and writes the current
value.  A getter called right after a successful `init` from a stopped state
gives 0 with the zero value (0 Hz, the empty frame), and a getter called after
a successful `exit` returns -1. -/
theorem C8_lifecycle (g : speed_t) (p : gps_t) (fopen_ok istream_ok ostream_ok : Bool)
    (d : ℚ) (dest : List Char) :
    (g.running = true → speed_init fopen_ok g = (-1, g)) ∧
    (p.running = true → gps_init istream_ok ostream_ok p = (-1, p)) ∧
    (g.running = false → speed_exit g = (-1, g)) ∧
    (p.running = false → gps_exit p = (-1, p)) ∧
    (speed_get_instant g d = (-1, d) ↔ g.running = false) ∧
    (speed_get_average g d = (-1, d) ↔ g.running = false) ∧
    (gps_get_frame p dest = (-1, dest) ↔ p.running = false) ∧
    (g.running = true → speed_get_instant g d = (0, g.instant) ∧
      speed_get_average g d = (0, g.average)) ∧
    (p.running = true → gps_get_frame p dest = (0, p.frame)) ∧
    (g.running = false → (speed_init true g).1 = 0 ∧
      speed_get_instant (speed_init true g).2 d = (0, 0) ∧
      speed_get_average (speed_init true g).2 d = (0, 0)) ∧
    (p.running = false → (gps_init true true p).1 = 0 ∧
      gps_get_frame (gps_init true true p).2 dest = (0, [])) ∧
    (g.running = true → (speed_exit g).1 = 0 ∧
      speed_get_instant (speed_exit g).2 d = (-1, d) ∧
      speed_get_average (speed_exit g).2 d = (-1, d)) ∧
    (p.running = true → (gps_exit p).1 = 0 ∧
      gps_get_frame (gps_exit p).2 dest = (-1, dest)) := by
  obtain ⟨gr, gi, ga, go, gf⟩ := g
  obtain ⟨pr, pf, po⟩ := p
  cases gr <;> cases pr <;>
    simp [speed_init, speed_exit, speed_get_instant, speed_get_average, gps_init, gps_exit,
      gps_get_frame]

/-- Witness of C8: from program start, `speed_init` then `speed_get_instant`
gives 0 and the value 0. -/
theorem C8_lifecycle_witness :
    (speed_init true speed_start).1 = 0 ∧
      speed_get_instant (speed_init true speed_start).2 7 = (0, 0) ∧
      speed_get_average (speed_init true speed_start).2 7 = (0, 0) :=
  (C8_lifecycle speed_start gps_start true true true 7 []).2.2.2.2.2.2.2.2.2.1 rfl

/-! ## The rotation log -/

theorem task_soft_routine_ostream (w : Nat) (g : speed_t) (t0 : Nat) (rest : List Nat) :
    (task_soft_routine w g (t0 :: rest)).ostream = g.ostream ++ rest := by
  simp only [task_soft_routine]
  exact task_soft_loop_ostream w rest g _

/-- C9 (the code at the failing input): in a session started by `speed_init`,
after the accepted rotations `t0 = 100` and `t1 = 300` the rotation log holds
the single line `300`: the first rotation `t0` is read outside the loop and is
never written. -/
theorem C9_rotation_log_first_missing :
    (task_soft_routine 32 (speed_init true speed_start).2 [100, 300]).ostream = [300] ∧
    (task_soft_routine 32 (speed_init true speed_start).2 [100, 300]).ostream ≠ [100, 300] := by
  rw [task_soft_routine_ostream]
  decide

/-! ## Lemmas: the conversions of `sscanf` on decimal fields -/

theorem isdigit_bounds {c : Char} (h : isdigit c = true) : 48 ≤ c.toNat ∧ c.toNat ≤ 57 := by
  simpa [isdigit] using h

theorem isdigit_not_isspace {c : Char} (h : isdigit c = true) : isspace c = false := by
  have := isdigit_bounds h
  simp only [isspace, Bool.or_eq_false_iff, Bool.and_eq_false_imp, decide_eq_false_iff_not,
    decide_eq_true_eq]
  omega

theorem isdigit_ne {c d : Char} (h : isdigit c = true) (hd : isdigit d = false) : c ≠ d := by
  intro he; rw [he, hd] at h; cases h

theorem takeWhile_digits (ds : List Char) (c : Char) (rest : List Char)
    (hds : ds.all isdigit = true) (hc : isdigit c = false) :
    (ds ++ c :: rest).takeWhile isdigit = ds := by
  induction ds with
  | nil => simp [List.takeWhile, hc]
  | cons d ds ih =>
    simp only [List.all_cons, Bool.and_eq_true] at hds
    simp [List.takeWhile, hds.1, ih hds.2]

theorem dropWhile_digits (ds : List Char) (c : Char) (rest : List Char)
    (hds : ds.all isdigit = true) (hc : isdigit c = false) :
    (ds ++ c :: rest).dropWhile isdigit = c :: rest := by
  induction ds with
  | nil => simp [List.dropWhile, hc]
  | cons d ds ih =>
    simp only [List.all_cons, Bool.and_eq_true] at hds
    simp [List.dropWhile, hds.1, ih hds.2]

theorem takeWhile_all_digits (ds : List Char) (hds : ds.all isdigit = true) :
    ds.takeWhile isdigit = ds := by
  induction ds with
  | nil => rfl
  | cons d ds ih =>
    simp only [List.all_cons, Bool.and_eq_true] at hds
    simp [List.takeWhile, hds.1, ih hds.2]

theorem dropWhile_all_digits (ds : List Char) (hds : ds.all isdigit = true) :
    ds.dropWhile isdigit = [] := by
  induction ds with
  | nil => rfl
  | cons d ds ih =>
    simp only [List.all_cons, Bool.and_eq_true] at hds
    simp [List.dropWhile, hds.1, ih hds.2]

theorem digits_head (ds : List Char) (hne : ds ≠ []) (hds : ds.all isdigit = true)
    (t : List Char) : ∃ x, (ds ++ t).head? = some x ∧ isdigit x = true := by
  cases ds with
  | nil => exact absurd rfl hne
  | cons x ds1 =>
    simp only [List.all_cons, Bool.and_eq_true] at hds
    exact ⟨x, rfl, hds.1⟩

theorem head_ne_of_digit {l : List Char} {x c : Char} (hl : l.head? = some x)
    (hx : isdigit x = true) (hc : isdigit c = false) : ¬ (l.head? = some c) := by
  rw [hl]
  intro h
  exact isdigit_ne hx hc (Option.some.inj h)

/-- The digits of a number followed by a comma. -/
theorem scan_mantissa_int (ds : List Char) (hne : ds ≠ []) (hds : ds.all isdigit = true)
    (rest : List Char) :
    scan_mantissa (ds ++ ',' :: rest) = mantissa.ok (digits_value ds : ℚ) ds.length := by
  obtain ⟨x, hh, hx⟩ := digits_head ds hne hds (',' :: rest)
  have hlen : ds.length ≠ 0 := fun h => hne (List.length_eq_zero.mp h)
  unfold scan_mantissa
  simp only [takeWhile_digits ds ',' rest hds (by decide),
    dropWhile_digits ds ',' rest hds (by decide),
    head_ne_of_digit hh hx (show isdigit 'i' = false by decide),
    head_ne_of_digit hh hx (show isdigit 'I' = false by decide),
    head_ne_of_digit hh hx (show isdigit 'n' = false by decide),
    head_ne_of_digit hh hx (show isdigit 'N' = false by decide)]
  simp [hlen]

/-- The digits of a number with a point, followed by a comma. -/
theorem scan_mantissa_frac (ds fs : List Char) (hne : ds ≠ []) (hds : ds.all isdigit = true)
    (hfs : fs.all isdigit = true) (rest : List Char) :
    scan_mantissa (ds ++ '.' :: (fs ++ ',' :: rest))
      = mantissa.ok ((digits_value ds : ℚ) + (digits_value fs : ℚ) / (10 : ℚ) ^ fs.length)
          (ds.length + 1 + fs.length) := by
  obtain ⟨x, hh, hx⟩ := digits_head ds hne hds ('.' :: (fs ++ ',' :: rest))
  have hlen : ds.length ≠ 0 := fun h => hne (List.length_eq_zero.mp h)
  unfold scan_mantissa
  simp only [takeWhile_digits ds '.' _ hds (by decide),
    dropWhile_digits ds '.' _ hds (by decide),
    takeWhile_digits fs ',' rest hfs (by decide),
    dropWhile_digits fs ',' rest hfs (by decide),
    head_ne_of_digit hh hx (show isdigit 'i' = false by decide),
    head_ne_of_digit hh hx (show isdigit 'I' = false by decide),
    head_ne_of_digit hh hx (show isdigit 'n' = false by decide),
    head_ne_of_digit hh hx (show isdigit 'N' = false by decide)]
  simp [hlen]

/-- The digits of a number that fills the whole region. -/
theorem scan_mantissa_all (ds : List Char) (hne : ds ≠ []) (h2 : 2 ≤ ds.length)
    (hds : ds.all isdigit = true) :
    scan_mantissa ds = mantissa.ok (digits_value ds : ℚ) ds.length := by
  obtain ⟨x, hh, hx⟩ := digits_head ds hne hds []
  rw [List.append_nil] at hh
  have hlen : ds.length ≠ 0 := fun h => hne (List.length_eq_zero.mp h)
  have h0 : ds ≠ ['0'] := by
    intro h; rw [h] at h2; simp at h2
  unfold scan_mantissa
  simp only [takeWhile_all_digits ds hds, dropWhile_all_digits ds hds,
    head_ne_of_digit hh hx (show isdigit 'i' = false by decide),
    head_ne_of_digit hh hx (show isdigit 'I' = false by decide),
    head_ne_of_digit hh hx (show isdigit 'n' = false by decide),
    head_ne_of_digit hh hx (show isdigit 'N' = false by decide)]
  simp [hlen, h0]

/-- The conversion `%f` on an input that starts with a digit: no white space
and no sign are read. -/
theorem scan_float_digit_head (width : Option Nat) (inp : List Char) (x : Char)
    (hh : inp.head? = some x) (hx : isdigit x = true) (hw : width ≠ some 0) :
    scan_float width inp =
      match scan_mantissa (match width with
          | none => inp
          | some k => inp.take k) with
      | mantissa.ok v len => conv.ok v (inp.drop len)
      | mantissa.none => conv.matching_failure
      | mantissa.unmodelled => conv.unmodelled := by
  obtain ⟨t, rfl⟩ : ∃ t, inp = x :: t := by
    cases inp with
    | nil => simp at hh
    | cons y t => simp at hh; exact ⟨t, by rw [hh]⟩
  have hxs : isspace x = false := isdigit_not_isspace hx
  have hm : x ≠ '-' := isdigit_ne hx (by decide)
  have hp : x ≠ '+' := isdigit_ne hx (by decide)
  unfold scan_float
  simp only [List.dropWhile_cons, hxs]
  cases width with
  | none =>
    simp [hm, hp]
  | some k =>
    cases k with
    | zero => exact absurd rfl hw
    | succ k =>
      simp [hm, hp]

/-- The conversion `%f` without field width on a well-formed decimal field
followed by a comma reads the field and stops before the comma. -/
theorem scan_float_decimal (d : decimal_field) (hd : d.wf = true) (rest : List Char) :
    scan_float none (d.text ++ ',' :: rest) = conv.ok d.value (',' :: rest) := by
  obtain ⟨ip, fp⟩ := d
  simp only [decimal_field.wf, Bool.and_eq_true, Bool.not_eq_true', List.isEmpty_eq_false] at hd
  obtain ⟨⟨hne, hip⟩, hfp⟩ := hd
  cases fp with
  | none =>
    simp only [decimal_field.text, decimal_field.value, List.append_nil, add_zero]
    obtain ⟨x, hh, hx⟩ := digits_head ip hne hip (',' :: rest)
    rw [scan_float_digit_head none _ x hh hx (by simp)]
    simp only [scan_mantissa_int ip hne hip rest, List.drop_left]
  | some f =>
    simp only [] at hfp
    simp only [decimal_field.text, decimal_field.value, List.append_assoc, List.cons_append]
    obtain ⟨x, hh, hx⟩ := digits_head ip hne hip ('.' :: (f ++ ',' :: rest))
    rw [scan_float_digit_head none _ x hh hx (by simp)]
    simp only [scan_mantissa_frac ip f hne hip hfp rest]
    have hdrop : List.drop (ip.length + 1 + f.length) (ip ++ '.' :: (f ++ ',' :: rest))
        = ',' :: rest := by
      have h1 : ip ++ '.' :: (f ++ ',' :: rest) = (ip ++ '.' :: f) ++ ',' :: rest := by simp
      have h2 : ip.length + 1 + f.length = (ip ++ '.' :: f).length := by simp; omega
      rw [h1, h2, List.drop_left]
    rw [hdrop]

/-- The conversion `%f` with field width `k ≥ 2` on `k` digits reads exactly
these digits. -/
theorem scan_float_degrees (k : Nat) (ds : List Char) (hk : 2 ≤ k) (hlen : ds.length = k)
    (hds : ds.all isdigit = true) (rest : List Char) :
    scan_float (some k) (ds ++ rest) = conv.ok (digits_value ds : ℚ) rest := by
  have hne : ds ≠ [] := by
    intro h; rw [h] at hlen; simp at hlen; omega
  obtain ⟨x, hh, hx⟩ := digits_head ds hne hds rest
  rw [scan_float_digit_head (some k) _ x hh hx (by simp; omega)]
  simp only []
  rw [← hlen, List.take_left, scan_mantissa_all ds hne (by omega) hds]
  simp only [List.drop_left]

/-- The `sscanf` call of `screen_3` on a sentence that respects the layout:
all seven locals are written, whatever the fix-quality character. -/
theorem sscanf_gpgga_layout (before : gpgga_scan) (f : gga_fields) (hwf : f.wf = true) :
    sscanf_gpgga before f.text
      = some { ret := 7,
               latitude := (digits_value f.lat_deg : ℚ),
               latitude_min := f.lat_min.value,
               latitude_dir := f.lat_dir,
               longitude := (digits_value f.lon_deg : ℚ),
               longitude_min := f.lon_min.value,
               longitude_dir := f.lon_dir,
               fix := f.fix } := by
  simp only [gga_fields.wf, Bool.and_eq_true, beq_iff_eq] at hwf
  obtain ⟨⟨⟨⟨⟨⟨⟨⟨ht, hl2⟩, hld⟩, hlm⟩, -⟩, hl3⟩, hod⟩, hom⟩, -⟩ := hwf
  unfold sscanf_gpgga gga_fields.text gpgga_format GPGGA
  simp only [sscanf, scan_lit, scan_char, List.cons_append, List.nil_append, if_true,
    scan_float_decimal _ ht, scan_float_degrees 2 _ (by decide) hl2 hld,
    scan_float_decimal _ hlm, scan_float_degrees 3 _ (by decide) hl3 hod,
    scan_float_decimal _ hom]
  simp [store_locals]

/-- C5: for every sentence laid out as
`$GPGGA,<time>,ddmm.mmmm,<N|S>,dddmm.mmmm,<E|W>,<fix>...` with fix-quality `1`
or `2`, the `sscanf` call of `screen_3` writes all seven locals (the parse is
valid) and the decoded position is latitude `dd + mm.mmmm / 60` and longitude
`ddd + mm.mmmm / 60`, each negated exactly when its hemisphere letter is `S`
(latitude) or `W` (longitude). -/
theorem C5_parse_decode (before : gpgga_scan) (f : gga_fields) (hwf : f.wf = true)
    (hfix : f.fix = '1' ∨ f.fix = '2') :
    ∃ scan, sscanf_gpgga before f.text = some scan ∧
      (scan.ret = 7 ∧ (scan.fix = '1' ∨ scan.fix = '2')) ∧
      decode_position scan = (f.latitude, f.longitude) := by
  refine ⟨_, sscanf_gpgga_layout before f hwf, ⟨rfl, hfix⟩, ?_⟩
  simp only [gga_fields.wf, Bool.and_eq_true, beq_iff_eq, Bool.or_eq_true] at hwf
  obtain ⟨⟨⟨⟨⟨⟨⟨⟨-, -⟩, -⟩, -⟩, hns⟩, -⟩, -⟩, -⟩, hew⟩ := hwf
  have hNS : ('N' : Char) ≠ 'S' := by decide
  have hEW : ('E' : Char) ≠ 'W' := by decide
  unfold decode_position gga_fields.latitude gga_fields.longitude
  rcases hns with hns | hns <;> rcases hew with hew | hew <;>
    simp [hns, hew, hNS, hEW, hNS.symm, hEW.symm]

theorem sample_fix_position :
    sample_fix.latitude = 48 + (7038 / 1000) / 60 ∧ sample_fix.longitude = 11 + 31 / 60 := by
  have h1 : digits_value ['4', '8'] = 48 := by decide
  have h2 : digits_value ['0', '7'] = 7 := by decide
  have h3 : digits_value ['0', '3', '8'] = 38 := by decide
  have h4 : digits_value ['0', '1', '1'] = 11 := by decide
  have h5 : digits_value ['3', '1'] = 31 := by decide
  have h6 : digits_value ['0', '0', '0'] = 0 := by decide
  have hNS : ¬ (('N' : Char) = 'S') := by decide
  have hEW : ¬ (('E' : Char) = 'W') := by decide
  constructor
  · simp only [gga_fields.latitude, sample_fix, decimal_field.value, h1, h2, h3, hNS, if_false,
      List.length_cons, List.length_nil]
    norm_num
  · simp only [gga_fields.longitude, sample_fix, decimal_field.value, h4, h5, h6, hEW, if_false,
      List.length_cons, List.length_nil]
    norm_num

/-- Witness of C5: the sentence
`$GPGGA,123519,4807.038,N,01131.000,E,1,08,0.9,545.4,M,46.9,M,,` decodes to
latitude `48 + 7.038 / 60` and longitude `11 + 31 / 60`, with a valid fix. -/
theorem C5_parse_decode_witness :
    sample_fix.text
        = "$GPGGA,123519,4807.038,N,01131.000,E,1,08,0.9,545.4,M,46.9,M,,".toList ∧
    sample_fix.latitude = 48 + (7038 / 1000) / 60 ∧
    sample_fix.longitude = 11 + 31 / 60 ∧
    ∃ scan, sscanf_gpgga sample_locals sample_fix.text = some scan ∧
      (scan.ret = 7 ∧ (scan.fix = '1' ∨ scan.fix = '2')) ∧
      decode_position scan = (sample_fix.latitude, sample_fix.longitude) :=
  ⟨by decide,
   sample_fix_position.1, sample_fix_position.2,
   C5_parse_decode sample_locals sample_fix (by decide) (Or.inl rfl)⟩

/-! ## An invalid parse -/

theorem scanf_stop_ret (b : Bool) (done : List stored) (ret : Int) (vals : List stored)
    (h : some (scanf_stop b done, done) = some (ret, vals)) :
    ret = (vals.length : Int) ∨ (ret = -1 ∧ vals = []) := by
  simp only [Option.some.injEq, Prod.mk.injEq] at h
  obtain ⟨h1, h2⟩ := h
  subst h2
  unfold scanf_stop at h1
  split at h1
  · next hc => right; exact ⟨h1.symm, hc.2⟩
  · left; exact h1.symm

/-- The value that `sscanf` returns is the count of the values stored, or
`EOF` with nothing stored. -/
theorem sscanf_ret (fmt : List directive) (inp : List Char) (done : List stored) (ret : Int)
    (vals : List stored) (h : sscanf fmt inp done = some (ret, vals)) :
    ret = (vals.length : Int) ∨ (ret = -1 ∧ vals = []) := by
  induction fmt generalizing inp done with
  | nil =>
    simp only [sscanf, Option.some.injEq, Prod.mk.injEq] at h
    left; rw [← h.1, ← h.2]
  | cons d fmt ih =>
    cases d with
    | lit c =>
      simp only [sscanf] at h
      split at h
      · exact ih _ _ h
      · exact scanf_stop_ret _ _ _ _ h
      · exact scanf_stop_ret _ _ _ _ h
      · cases h
    | flt width suppress =>
      simp only [sscanf] at h
      split at h
      · exact ih _ _ h
      · exact scanf_stop_ret _ _ _ _ h
      · exact scanf_stop_ret _ _ _ _ h
      · cases h
    | chr =>
      simp only [sscanf] at h
      split at h
      · exact ih _ _ h
      · exact scanf_stop_ret _ _ _ _ h
      · exact scanf_stop_ret _ _ _ _ h
      · cases h

/-- C6: the `sscanf` call returns 7 exactly when all seven locals were
written, and whenever the parse is invalid (the call did not return 7, or the
fix-quality character is neither `1` nor `2`) the turn of `screen_3` keeps the
default colour (the classification is Unknown) and leaves the cursor
`sector_curr` as it was. -/
theorem C6_invalid_parse (cfg : config_file_t) (sf : sector_file_t) (sector_curr : Nat)
    (speed_hz : ℚ) (before : gpgga_scan) (gps_frame : List Char) (scan : gpgga_scan)
    (hscan : sscanf_gpgga before gps_frame = some scan)
    (hinv : ¬ (scan.ret = 7 ∧ (scan.fix = '1' ∨ scan.fix = '2'))) :
    (∀ ret vals, sscanf gpgga_format gps_frame [] = some (ret, vals) →
      (ret = 7 ↔ vals.length = 7)) ∧
    screen_3_turn cfg sf sector_curr speed_hz scan
      = (classification.Unknown.color, sector_curr) ∧
    screen_3_frame cfg sf sector_curr speed_hz before gps_frame
      = some (classification.Unknown.color, sector_curr) := by
  have hturn : screen_3_turn cfg sf sector_curr speed_hz scan
      = (classification.Unknown.color, sector_curr) := by
    unfold screen_3_turn classification.color
    simp only [if_neg hinv, ite_self]
  refine ⟨?_, hturn, ?_⟩
  · intro ret vals h
    rcases sscanf_ret _ _ _ _ _ h with hr | ⟨hr, hv⟩
    · rw [hr]; exact Int.ofNat_inj
    · rw [hr, hv]; simp
  · unfold screen_3_frame
    rw [hscan]
    simp only [hturn]

/-- Witness of C6: a sentence with fix-quality `0` keeps the default colour and
the cursor. -/
theorem C6_invalid_parse_witness :
    screen_3_frame sample_config sample_sectors 2 3 sample_locals
        { sample_fix with fix := '0' }.text
      = some (classification.Unknown.color, 2) :=
  (C6_invalid_parse sample_config sample_sectors 2 3 sample_locals
    { sample_fix with fix := '0' }.text _
    (sscanf_gpgga_layout sample_locals { sample_fix with fix := '0' } (by decide))
    (by decide)).2.2

/-- The empty frame, before the first fix: `sscanf` returns `EOF`, the parse is
invalid. -/
theorem empty_frame_invalid (before : gpgga_scan) :
    sscanf_gpgga before [] = some { before with ret := -1 } := by
  rfl

/-! ## The spacing of the timestamps written to the queue -/

theorem task_hard_loop_queue (w : Nat) (irqs : List Nat) (s : hard_locals) (q : List Nat) :
    ∃ l, (task_hard_loop w s q irqs).2 = q ++ l := by
  induction irqs generalizing s q with
  | nil => exact ⟨[], by simp [task_hard_loop]⟩
  | cons t a ih =>
    simp only [task_hard_loop]
    split
    · next s1 t1 heq =>
      obtain ⟨l, hl⟩ := ih s1 (q ++ [t1])
      exact ⟨t1 :: l, by rw [hl]; simp⟩
    · next s1 heq => exact ih s1 q

theorem task_hard_step_cases (w : Nat) (s : hard_locals) (t : Nat) :
    (task_hard_step w s t = ({ n := (s.n + 1) % 2 ^ w, time_prev := t }, some t) ∧
      t > (s.time_prev + EPSILON) % RTIME_MOD) ∨
    task_hard_step w s t = ({ n := (s.n + 1) % 2 ^ w, time_prev := s.time_prev }, none) := by
  unfold task_hard_step
  simp only []
  split
  · next h => exact Or.inl ⟨rfl, h.2⟩
  · exact Or.inr rfl

/-- The invariant of the loop of `task_hard_routine`: the queue is spaced, and
`time_prev` is its greatest and latest element. -/
theorem task_hard_loop_spaced (w : Nat) (irqs : List Nat) (s : hard_locals) (q : List Nat)
    (hno : ∀ t ∈ (task_hard_loop w s q irqs).2, t + EPSILON < 2 ^ 64)
    (hq : q.Pairwise (fun a b => a + EPSILON < b))
    (hle : ∀ x ∈ q, x ≤ s.time_prev)
    (hmem : q ≠ [] → s.time_prev ∈ q) :
    (task_hard_loop w s q irqs).2.Pairwise (fun a b => a + EPSILON < b) := by
  induction irqs generalizing s q with
  | nil => simpa [task_hard_loop] using hq
  | cons t a ih =>
    rcases task_hard_step_cases w s t with ⟨hstep, hgt⟩ | hstep
    · simp only [task_hard_loop, hstep] at hno ⊢
      have hsp : ∀ x ∈ q, x + EPSILON < t := by
        intro x hx
        have hne : q ≠ [] := List.ne_nil_of_mem hx
        obtain ⟨l, hl⟩ := task_hard_loop_queue w a
          { n := (s.n + 1) % 2 ^ w, time_prev := t } (q ++ [t])
        have hp := hno s.time_prev (by rw [hl]; simp [hmem hne])
        have hmod : (s.time_prev + EPSILON) % RTIME_MOD = s.time_prev + EPSILON :=
          Nat.mod_eq_of_lt hp
        rw [hmod] at hgt
        have := hle x hx
        omega
      apply ih _ _ hno
      · rw [List.pairwise_append]
        refine ⟨hq, List.pairwise_singleton _ _, ?_⟩
        intro x hx y hy
        rw [List.mem_singleton] at hy
        rw [hy]; exact hsp x hx
      · intro x hx
        rw [List.mem_append, List.mem_singleton] at hx
        rcases hx with hx | hx
        · have := hsp x hx
          show x ≤ t
          omega
        · exact le_of_eq hx
      · intro _
        simp
    · simp only [task_hard_loop, hstep] at hno ⊢
      exact ih _ _ hno hq hle hmem

theorem rtime_sub_pos (a b : Nat) (hab : b < a) (ha : a < 2 ^ 64) : 0 < rtime_sub a b := by
  rw [rtime_sub_of_le a b hab.le ha]
  omega

/-- C11: for every sequence of raw edge timestamps in which no accepted
timestamp `t` makes `t + 100,000,000` overflow 64 bits, the timestamps that
the filter writes to the queue are strictly increasing, and two consecutive
ones differ by more than 100,000,000 ns; so, for every message `T` that the
aggregator reads after the first, the two divisors `T - time_prev` and
`T - time_init` are strictly positive. -/
theorem C11_filter_output_spaced (w : Nat) (start : Nat) (irqs : List Nat)
    (hno : ∀ t ∈ (task_hard_routine w start irqs).2, t + EPSILON < 2 ^ 64) :
    (task_hard_routine w start irqs).2.Pairwise (· < ·) ∧
    (∀ i, i + 1 < (task_hard_routine w start irqs).2.length →
      (task_hard_routine w start irqs).2.getD i 0 + 100000000
        < (task_hard_routine w start irqs).2.getD (i + 1) 0) ∧
    (∀ (g : speed_t) (t0 : Nat) (a : List Nat) (T : Nat) (b : List Nat),
      (task_hard_routine w start irqs).2 = t0 :: (a ++ T :: b) →
      0 < rtime_sub T
        (task_soft_loop w g { n := 0, time_init := t0, time_prev := t0 } a).2.time_prev ∧
      0 < rtime_sub T
        (task_soft_loop w g { n := 0, time_init := t0, time_prev := t0 } a).2.time_init) := by
  have hsp : (task_hard_routine w start irqs).2.Pairwise (fun a b => a + EPSILON < b) :=
    task_hard_loop_spaced w irqs _ [] hno List.Pairwise.nil (by simp) (by simp)
  have hE : EPSILON = 100000000 := by decide
  have hlt : (task_hard_routine w start irqs).2.Pairwise (· < ·) :=
    hsp.imp (fun h => by omega)
  generalize (task_hard_routine w start irqs).2 = q at hno hsp hlt
  refine ⟨hlt, ?_, ?_⟩
  · intro i hi
    have h := (List.pairwise_iff_getElem.mp hsp) i (i + 1) (by omega) hi (by omega)
    rw [List.getD_eq_getElem _ _ (show i < q.length by omega), List.getD_eq_getElem _ _ hi]
    omega
  · intro g t0 a T b hq
    subst hq
    have hT : T < 2 ^ 64 := by
      have := hno T (by simp)
      omega
    have hlt2 : ((t0 :: a) ++ T :: b).Pairwise (· < ·) := hlt
    have hbelow : ∀ x ∈ t0 :: a, x < T := by
      intro x hx
      exact (List.pairwise_append.mp hlt2).2.2 x hx T (by simp)
    rw [task_soft_loop_prev, task_soft_loop_init]
    exact ⟨rtime_sub_pos _ _ (hbelow _ (List.getLast_mem _)) hT,
      rtime_sub_pos _ _ (hbelow t0 (by simp)) hT⟩

/-- Witness of C11: three raw edges, of which the first and the third are
written to the queue. -/
theorem C11_filter_output_spaced_witness :
    (task_hard_routine 32 0 [100000001, 100000002, 300000001]).2.Pairwise (· < ·) :=
  (C11_filter_output_spaced 32 0 [100000001, 100000002, 300000001] (by decide)).1

/-! ## The aggregator on a timestamp that does not follow the previous one -/

theorem rtime_sub_wrap (a b : Nat) (hab : a < b) (hb : b < 2 ^ 64) :
    rtime_sub a b = 2 ^ 64 + a - b := by
  unfold rtime_sub RTIME_MOD
  have hb1 : b % 2 ^ 64 = b := Nat.mod_eq_of_lt hb
  rw [hb1]
  exact Nat.mod_eq_of_lt (show a + 2 ^ 64 - b < 2 ^ 64 by omega) |>.trans (by omega)

theorem rtime_sub_self (a : Nat) (ha : a < 2 ^ 64) : rtime_sub a a = 0 := by
  unfold rtime_sub RTIME_MOD
  have ha1 : a % 2 ^ 64 = a := Nat.mod_eq_of_lt ha
  rw [ha1]
  have : a + 2 ^ 64 - a = 2 ^ 64 := by omega
  rw [this, Nat.mod_self]

/-- C12 (amended): the aggregator makes no check of the elapsed time and never
stops the session.  For every message `T` with negative elapsed time
(`T < time_prev`, or `T < time_init`) the unsigned 64-bit difference wraps and
the value published is `instant = 1e9 / (2^64 - (time_prev - T))` (or
`average = 1e9 * n / (2^64 - (time_init - T))`); with zero elapsed time the
divisor is 0 and the division is made all the same; in every case `running` is
left as it was, `T` is appended to the rotation log, `time_prev` becomes `T`
and the loop goes on with the next message. -/
theorem C12_aggregator_no_check (w : Nat) (g : speed_t) (s : soft_locals) (T : Nat)
    (rest : List Nat) (hT : T < 2 ^ 64) (hprev : s.time_prev < 2 ^ 64)
    (hinit : s.time_init < 2 ^ 64) :
    (T < s.time_prev → (task_soft_step w g s T).1.instant
        = 1000000000 / (((2 ^ 64 + T - s.time_prev : Nat) : ℚ))) ∧
    (T < s.time_init → (task_soft_step w g s T).1.average
        = 1000000000 * ((((s.n + 1) % 2 ^ w : Nat) : ℚ))
            / (((2 ^ 64 + T - s.time_init : Nat) : ℚ))) ∧
    (T = s.time_prev → rtime_sub T s.time_prev = 0) ∧
    (T = s.time_init → rtime_sub T s.time_init = 0) ∧
    (task_soft_step w g s T).1.running = g.running ∧
    (task_soft_step w g s T).1.ostream = g.ostream ++ [T] ∧
    (task_soft_step w g s T).2.time_prev = T ∧
    task_soft_loop w g s (T :: rest)
      = task_soft_loop w (task_soft_step w g s T).1 (task_soft_step w g s T).2 rest := by
  refine ⟨fun h => ?_, fun h => ?_, fun h => ?_, fun h => ?_, rfl, rfl, rfl, rfl⟩
  · simp only [task_soft_step, rtime_sub_wrap T s.time_prev h hprev]
  · simp only [task_soft_step, rtime_sub_wrap T s.time_init h hinit]
  · rw [← h]; exact rtime_sub_self T hT
  · rw [← h]; exact rtime_sub_self T hT

/-- Witness of C12 (amended): the message 100 after the message 300. -/
theorem C12_aggregator_no_check_witness :
    (task_soft_step 32 (speed_init true speed_start).2
        { n := 0, time_init := 300, time_prev := 300 } 100).1.instant
      = 1000000000 / (((2 ^ 64 + 100 - 300 : Nat) : ℚ)) :=
  (C12_aggregator_no_check 32 (speed_init true speed_start).2
    { n := 0, time_init := 300, time_prev := 300 } 100 [] (by decide) (by decide)
    (by decide)).1 (by decide)

/-- C12 as stated fails: in a session started by `speed_init`, after the
messages 300 and 100 (`T = 100 ≤ time_prev = 300`) the session is still
running, `speed_get_instant` returns 0 and writes the value
`1e9 / (2^64 - 200)` computed from this interval, and a later message 500 is
handled as usual (the log then holds the lines 100 and 500). -/
theorem C12_counterexample :
    (100 : Nat) ≤ 300 ∧
    (task_soft_routine 32 (speed_init true speed_start).2 [300, 100]).running = true ∧
    speed_get_instant (task_soft_routine 32 (speed_init true speed_start).2 [300, 100]) 0
      = (0, 1000000000 / 18446744073709551416) ∧
    (task_soft_routine 32 (speed_init true speed_start).2 [300, 100, 500]).ostream
      = [100, 500] := by
  refine ⟨by decide, rfl, ?_, ?_⟩
  · have h : rtime_sub 100 300 = 18446744073709551416 := by decide
    simp [task_soft_routine, task_soft_loop, task_soft_step, speed_get_instant, speed_init,
      speed_start, h]
  · rw [task_soft_routine_ostream]
    rfl

/-! ## Bounds of the matching loop -/

theorem next_lt (n x : Nat) (hx : x < n) : (if x + 1 = n then 0 else x + 1) < n := by
  split <;> omega

theorem match_loop_go (cfg : config_file_t) (sf : sector_file_t) (lat lon : ℚ) (cur k : Nat)
    (hk : k < sf.count) (hcol : sector_collide cfg sf lat lon cur = false) :
    match_loop cfg sf lat lon cur k
      = match_loop cfg sf lat lon (if cur + 1 = sf.count then 0 else cur + 1) (k + 1) := by
  conv_lhs => rw [match_loop]
  rw [if_pos ⟨hk, hcol⟩]

theorem match_loop_end (cfg : config_file_t) (sf : sector_file_t) (lat lon : ℚ) (cur k : Nat)
    (h : ¬ (k < sf.count ∧ sector_collide cfg sf lat lon cur = false)) :
    match_loop cfg sf lat lon cur k = (cur, k) := by
  conv_lhs => rw [match_loop]
  rw [if_neg h]

theorem match_loop_reads_out (cfg : config_file_t) (sf : sector_file_t) (lat lon : ℚ)
    (cur k : Nat) (hk : ¬ k < sf.count) : match_loop_reads cfg sf lat lon cur k = [] := by
  conv_lhs => rw [match_loop_reads]
  rw [if_neg hk]

theorem match_loop_reads_go (cfg : config_file_t) (sf : sector_file_t) (lat lon : ℚ)
    (cur k : Nat) (hk : k < sf.count) (hcol : sector_collide cfg sf lat lon cur = false) :
    match_loop_reads cfg sf lat lon cur k
      = cur :: match_loop_reads cfg sf lat lon
          (if cur + 1 = sf.count then 0 else cur + 1) (k + 1) := by
  conv_lhs => rw [match_loop_reads]
  rw [if_pos hk, if_pos hcol]

theorem match_loop_reads_hit (cfg : config_file_t) (sf : sector_file_t) (lat lon : ℚ)
    (cur k : Nat) (hk : k < sf.count) (hcol : ¬ sector_collide cfg sf lat lon cur = false) :
    match_loop_reads cfg sf lat lon cur k = [cur] := by
  conv_lhs => rw [match_loop_reads]
  rw [if_pos hk, if_neg hcol]

/-- The loop from `(cur, k)`: the final `k` and cursor are in range. -/
theorem match_loop_bounds (cfg : config_file_t) (sf : sector_file_t) (lat lon : ℚ) (m : Nat) :
    ∀ cur k, sf.count - k = m → k ≤ sf.count → cur < sf.count →
      k ≤ (match_loop cfg sf lat lon cur k).2 ∧
      (match_loop cfg sf lat lon cur k).2 ≤ sf.count ∧
      (match_loop cfg sf lat lon cur k).1 < sf.count := by
  induction m with
  | zero =>
    intro cur k hm hk hcur
    rw [match_loop_end cfg sf lat lon cur k (fun h => by omega)]
    exact ⟨le_rfl, hk, hcur⟩
  | succ m ih =>
    intro cur k hm hk hcur
    by_cases hgo : k < sf.count ∧ sector_collide cfg sf lat lon cur = false
    · rw [match_loop_go cfg sf lat lon cur k hgo.1 hgo.2]
      obtain ⟨h1, h2, h3⟩ := ih (if cur + 1 = sf.count then 0 else cur + 1) (k + 1)
        (by omega) (by omega) (next_lt _ _ hcur)
      exact ⟨by omega, h2, h3⟩
    · rw [match_loop_end cfg sf lat lon cur k hgo]
      exact ⟨le_rfl, hk, hcur⟩

/-- The reads of the loop from `(cur, k)`: all in range, one per turn of the
loop, and one more when the loop stops on a sector that contains the position. -/
theorem match_loop_reads_bounds (cfg : config_file_t) (sf : sector_file_t) (lat lon : ℚ)
    (m : Nat) :
    ∀ cur k, sf.count - k = m → k ≤ sf.count → cur < sf.count →
      (∀ i ∈ match_loop_reads cfg sf lat lon cur k, i < sf.count) ∧
      (match_loop_reads cfg sf lat lon cur k).length + k
        = (match_loop cfg sf lat lon cur k).2
          + (if (match_loop cfg sf lat lon cur k).2 = sf.count then 0 else 1) := by
  induction m with
  | zero =>
    intro cur k hm hk hcur
    have hkc : ¬ k < sf.count := by omega
    rw [match_loop_reads_out cfg sf lat lon cur k hkc,
      match_loop_end cfg sf lat lon cur k (fun h => hkc h.1)]
    refine ⟨fun i hi => absurd hi (List.not_mem_nil i), ?_⟩
    simp only [List.length_nil]
    rw [if_pos (by omega)]
    omega
  | succ m ih =>
    intro cur k hm hk hcur
    have hlt : k < sf.count := by omega
    by_cases hcol : sector_collide cfg sf lat lon cur = false
    · rw [match_loop_reads_go cfg sf lat lon cur k hlt hcol,
        match_loop_go cfg sf lat lon cur k hlt hcol]
      obtain ⟨h1, h2⟩ := ih (if cur + 1 = sf.count then 0 else cur + 1) (k + 1)
        (by omega) (by omega) (next_lt _ _ hcur)
      refine ⟨?_, ?_⟩
      · intro i hi
        rw [List.mem_cons] at hi
        rcases hi with hi | hi
        · rw [hi]; exact hcur
        · exact h1 i hi
      · rw [List.length_cons, ← h2]; omega
    · rw [match_loop_reads_hit cfg sf lat lon cur k hlt hcol,
        match_loop_end cfg sf lat lon cur k (fun h => hcol h.2)]
      refine ⟨?_, ?_⟩
      · intro i hi
        rw [List.mem_singleton] at hi
        rw [hi]; exact hcur
      · simp only [List.length_singleton]
        rw [if_neg (by omega)]
        omega

theorem cursor_after_lt (cfg : config_file_t) (sf : sector_file_t) (ps : List (ℚ × ℚ)) :
    ∀ c, c < sf.count → cursor_after cfg sf c ps < sf.count := by
  induction ps with
  | nil => intro c hc; exact hc
  | cons p ps ih =>
    intro c hc
    simp only [cursor_after]
    exact ih _ (match_loop_bounds cfg sf p.1 p.2 _ c 0 rfl (Nat.zero_le _) hc).2.2

/-- C13: for every sector table with `1 ≤ count ≤ 8192` and every cursor
`c < count`, one run of the matching loop makes at most `count` turns (the final
`k`, which counts them), reads the array `sectors` at most `count` times and
only at indices below `count` (so inside the array of 8192 entries), and leaves
the cursor below `count`; hence from cursor 0 the cursor stays below `count`
over any number of successive runs. -/
theorem C13_matcher_bounds (cfg : config_file_t) (sf : sector_file_t) (lat lon : ℚ) (c : Nat)
    (hcount : 1 ≤ sf.count) (hcap : sf.count ≤ SECTORS_SIZE) (hc : c < sf.count) :
    (match_loop cfg sf lat lon c 0).2 ≤ sf.count ∧
    (match_loop_reads cfg sf lat lon c 0).length
      = (match_loop cfg sf lat lon c 0).2
        + (if (match_loop cfg sf lat lon c 0).2 = sf.count then 0 else 1) ∧
    (match_loop_reads cfg sf lat lon c 0).length ≤ sf.count ∧
    (∀ i ∈ match_loop_reads cfg sf lat lon c 0, i < sf.count ∧ i < SECTORS_SIZE) ∧
    (match_loop cfg sf lat lon c 0).1 < sf.count ∧
    (∀ ps : List (ℚ × ℚ), cursor_after cfg sf 0 ps < sf.count) := by
  obtain ⟨-, hk, hcur⟩ := match_loop_bounds cfg sf lat lon _ c 0 rfl (Nat.zero_le _) hc
  obtain ⟨hr, hl⟩ := match_loop_reads_bounds cfg sf lat lon _ c 0 rfl (Nat.zero_le _) hc
  rw [Nat.add_zero] at hl
  refine ⟨hk, hl, ?_, fun i hi => ⟨hr i hi, lt_of_lt_of_le (hr i hi) hcap⟩, hcur,
    fun ps => cursor_after_lt cfg sf ps 0 (by omega)⟩
  rw [hl]
  split <;> omega

/-- Witness of C13: the sample table, scanned from cursor 2. -/
theorem C13_matcher_bounds_witness :
    (match_loop sample_config sample_sectors 5 (11 / 2) 2 0).2 ≤ sample_sectors.count :=
  (C13_matcher_bounds sample_config sample_sectors 5 (11 / 2) 2 (by decide) (by decide)
    (by decide)).1

/-! ## The cursor after a failed match -/

theorem match_loop_reads_none (cfg : config_file_t) (sf : sector_file_t) (lat lon : ℚ)
    (hno : ∀ i, i < sf.count → ¬ strictly_inside cfg sf lat lon i) (m : Nat) :
    ∀ c k, sf.count - k = m → k ≤ sf.count → c < sf.count →
      match_loop_reads cfg sf lat lon c k
        = (List.range m).map (fun j => (c + j) % sf.count) := by
  induction m with
  | zero =>
    intro c k hm hk hc
    rw [match_loop_reads_out cfg sf lat lon c k (by omega)]
    rfl
  | succ m ih =>
    intro c k hm hk hc
    have hcol : sector_collide cfg sf lat lon c = false := by
      have := hno c hc
      rw [← sector_collide_iff, Bool.not_eq_true] at this
      exact this
    rw [match_loop_reads_go cfg sf lat lon c k (by omega) hcol,
      ih _ (k + 1) (by omega) (by omega) (next_lt _ _ hc)]
    rw [List.range_succ_eq_map, List.map_cons, List.map_map]
    have h0 : (c + 0) % sf.count = c := by rw [Nat.add_zero]; exact Nat.mod_eq_of_lt hc
    rw [h0]
    congr 1
    apply List.map_congr_left
    intro j _
    simp only [Function.comp]
    have hn := next_index sf.count c
    rw [Nat.mod_eq_of_lt hc] at hn
    rw [hn, Nat.mod_add_mod]
    congr 1
    omega

/-- C14: for every sector table with `count ≥ 1`, every cursor `c < count` and
every position that no sector's box contains, the matching loop makes exactly
`count` turns, visiting the indices `c, c + 1, ...` with wrap-around, and ends
with the cursor equal to `c`; so a turn of `screen_3` whose parse is valid and
whose position matches no sector leaves `sector_curr` as it was (and keeps the
default colour). -/
theorem C14_cursor_after_no_match (cfg : config_file_t) (sf : sector_file_t) (lat lon : ℚ)
    (c : Nat) (hcount : 1 ≤ sf.count) (hc : c < sf.count)
    (hno : ∀ i, i < sf.count → ¬ strictly_inside cfg sf lat lon i) :
    match_loop cfg sf lat lon c 0 = (c, sf.count) ∧
    match_loop_reads cfg sf lat lon c 0
      = (List.range sf.count).map (fun j => (c + j) % sf.count) ∧
    cursor_after cfg sf c [(lat, lon)] = c ∧
    (∀ (speed_hz : ℚ) (scan : gpgga_scan),
      scan.ret = 7 ∧ (scan.fix = '1' ∨ scan.fix = '2') → decode_position scan = (lat, lon) →
      screen_3_turn cfg sf c speed_hz scan = (classification.Unknown.color, c)) := by
  have hm := match_loop_none cfg sf lat lon c hc hno
  refine ⟨hm, match_loop_reads_none cfg sf lat lon hno _ c 0 rfl (Nat.zero_le _) hc, ?_, ?_⟩
  · simp only [cursor_after, hm]
  · intro speed_hz scan hvalid hpos
    unfold screen_3_turn
    simp only [hpos, hm, if_pos hvalid, if_pos (show sf.count > 0 by omega), ne_eq,
      not_true_eq_false, if_false, classification.color]

/-- Witness of C14: the position (50, 0) is in no box of the sample table; from
cursor 2 the loop ends with the cursor at 2. -/
theorem C14_cursor_after_no_match_witness :
    match_loop sample_config sample_sectors 50 0 2 0 = (2, sample_sectors.count) :=
  (C14_cursor_after_no_match sample_config sample_sectors 50 0 2 (by decide) (by decide)
    (by
      intro i hi
      have h3 : i < 3 := hi
      interval_cases i <;>
        norm_num [strictly_inside, sector_file_t.at, sample_sectors, sample_config])).1

end Ecollect
